import Mathlib

/-
Shallow embedding of the ICPC scoreboard management system (src/main.cpp).

Modelling conventions:
* C++ `std::map<string, V>` becomes an association list `List (String × V)`.
  `operator[]` reads are `getDA` (default value) and insert the key when absent
  (`ensureA`), mirroring the C++ side effect; `map::at` is `lookupA`, which is
  partial: code paths that call `at` on a possibly missing key return `Option`
  (in C++ the uncaught `std::out_of_range` aborts the process).
  `std::map` iterates in key order; the only map iterations in the source
  (collecting solve times, initializing teams) produce results independent of
  iteration order, so list order is immaterial there.
* `std::set<string>` (frozen problems per team) becomes a duplicate-free
  `List String`; the scroll engine only uses membership, emptiness, minimum
  and erasure, all order-independent.
* C++ `int` counters that are only ever incremented become `Nat`;
  timestamps and penalty times (which involve raw input ints) become `Int`.
* Console output is modelled as returned values: result codes for the error
  messages, scoreboard snapshots for `printScoreboard`, and the ranking-change
  event list for `scrollScoreboard`.
-/

namespace ICPCMS

inductive Status where
  | accepted
  | wrongAnswer
  | runtimeError
  | timeLimitExceed
deriving DecidableEq, Repr

def stringToStatus (s : String) : Status :=
  if s = "Accepted" then Status.accepted
  else if s = "Wrong_Answer" then Status.wrongAnswer
  else if s = "Runtime_Error" then Status.runtimeError
  else if s = "Time_Limit_Exceed" then Status.timeLimitExceed
  else Status.wrongAnswer

def statusToString : Status → String
  | Status.accepted => "Accepted"
  | Status.wrongAnswer => "Wrong_Answer"
  | Status.runtimeError => "Runtime_Error"
  | Status.timeLimitExceed => "Time_Limit_Exceed"

structure Submission where
  teamName : String
  problemName : String
  status : Status
  time : Int
deriving DecidableEq, Repr

/-- Association-list counterpart of `std::map<std::string, V>`. -/
abbrev AMap (V : Type) := List (String × V)

def lookupA {V : Type} : AMap V → String → Option V
  | [], _ => none
  | e :: rest, k => if e.1 = k then some e.2 else lookupA rest k

def setA {V : Type} : AMap V → String → V → AMap V
  | [], k, v => [(k, v)]
  | e :: rest, k, v => if e.1 = k then (k, v) :: rest else e :: setA rest k v

def getDA {V : Type} (m : AMap V) (k : String) (d : V) : V :=
  (lookupA m k).getD d

/-- Effect of a defaulted `operator[]` access on the map itself: the key is
inserted with the default value when absent. -/
def ensureA {V : Type} (m : AMap V) (k : String) (d : V) : AMap V :=
  match lookupA m k with
  | some _ => m
  | none => setA m k d

/-- Duplicate-free insertion, mirroring `std::set::insert`. -/
def insertSet (l : List String) (p : String) : List String :=
  if p ∈ l then l else l ++ [p]

/-- Mirrors `std::set::erase`. -/
def eraseSet (l : List String) (p : String) : List String :=
  l.filter (fun q => q ≠ p)

/-- Lexicographic comparison of character lists, mirroring the C++
`std::string` `operator<` (UTF-8 byte order coincides with codepoint order).
The library's `String` order is iterator-based and does not reduce in the
kernel, so the embedding carries its own executable comparison. -/
def charListLt : List Char → List Char → Bool
  | _, [] => false
  | [], _ :: _ => true
  | a :: as, b :: bs =>
    if a.toNat < b.toNat then true
    else if b.toNat < a.toNat then false
    else charListLt as bs

def strLt (a b : String) : Bool :=
  charListLt a.data b.data

structure Team where
  name : String
  solvedCount : Nat
  penaltyTime : Int
  wrongSubmissions : AMap Nat
  firstAcceptTime : AMap Int
  isSolved : AMap Bool
  totalSubmissions : AMap Nat
  frozenSubmissions : AMap Nat
deriving DecidableEq, Repr

def Team.new (n : String) : Team :=
  { name := n, solvedCount := 0, penaltyTime := 0, wrongSubmissions := [],
    firstAcceptTime := [], isSolved := [], totalSubmissions := [],
    frozenSubmissions := [] }

/-- `Team::getProblemPenalty`; the three `map::at` calls make it partial. -/
def Team.getProblemPenalty (t : Team) (p : String) : Option Int :=
  match lookupA t.isSolved p with
  | none => none
  | some false => some 0
  | some true =>
    match lookupA t.wrongSubmissions p, lookupA t.firstAcceptTime p with
    | some w, some f => some (20 * (w : Int) + f)
    | _, _ => none

/-- `Team::getSolveTimes`: acceptance times of solved problems, sorted in
descending order.  (For solved entries `firstAcceptTime` is always populated
alongside `isSolved`, so the `map::at` there cannot fail; absent entries are
skipped.) -/
def Team.getSolveTimes (t : Team) : List Int :=
  List.insertionSort (fun a b => b ≤ a)
    ((t.isSolved.filter (fun e => e.2)).filterMap (fun e => lookupA t.firstAcceptTime e.1))

structure SystemState where
  competitionStarted : Bool
  isFrozen : Bool
  durationTime : Int
  problemCount : Int
  problemNames : List String
  teams : AMap Team
  submissions : List Submission
  teamOrder : List String
  frozenProblems : AMap (List String)
deriving DecidableEq, Repr

def initState : SystemState :=
  { competitionStarted := false, isFrozen := false, durationTime := 0,
    problemCount := 0, problemNames := [], teams := [], submissions := [],
    teamOrder := [], frozenProblems := [] }

/-- `teams[n]`: defaulted map access (the default constructor leaves the
name field empty). -/
def getTeamD (s : SystemState) (n : String) : Team :=
  (lookupA s.teams n).getD (Team.new "")

inductive AddTeamResult where
  | ok
  | duplicateTeam
  | alreadyStarted
deriving DecidableEq, Repr

def addTeam (teamName : String) (s : SystemState) : SystemState × AddTeamResult :=
  if s.competitionStarted then (s, AddTeamResult.alreadyStarted)
  else if (lookupA s.teams teamName).isSome then (s, AddTeamResult.duplicateTeam)
  else ({ s with teams := setA s.teams teamName (Team.new teamName),
                 teamOrder := s.teamOrder ++ [teamName] }, AddTeamResult.ok)

inductive StartResult where
  | ok
  | alreadyStarted
deriving DecidableEq, Repr

/-- Problem names are "A", "B", ... (`string(1, 'A' + i)`). -/
def problemNameOfIdx (i : Nat) : String :=
  String.mk [Char.ofNat (65 + i)]

def initTeamProblems (pnames : List String) (t : Team) : Team :=
  pnames.foldl
    (fun t p =>
      { t with wrongSubmissions := setA t.wrongSubmissions p 0,
               firstAcceptTime := setA t.firstAcceptTime p 0,
               isSolved := setA t.isSolved p false,
               totalSubmissions := setA t.totalSubmissions p 0,
               frozenSubmissions := setA t.frozenSubmissions p 0 }) t

def startCompetition (duration problemCnt : Int) (s : SystemState) :
    SystemState × StartResult :=
  if s.competitionStarted then (s, StartResult.alreadyStarted)
  else
    let pnames := (List.range problemCnt.toNat).map problemNameOfIdx
    ({ s with durationTime := duration, problemCount := problemCnt,
              problemNames := s.problemNames ++ pnames,
              teams := s.teams.map (fun e => (e.1, initTeamProblems pnames e.2)),
              competitionStarted := true }, StartResult.ok)

/-- `ICPCManagementSystem::submitProblem`.  Returns `none` when the C++ code
would die on `wrongSubmissions.at(problem)` inside `getProblemPenalty`
(possible for a team or problem that never got its per-problem slots). -/
def submitProblem (problemName teamName statusStr : String) (time : Int)
    (s : SystemState) : Option SystemState :=
  let status := stringToStatus statusStr
  let subs := s.submissions ++ [⟨teamName, problemName, status, time⟩]
  let team0 := getTeamD s teamName
  let t1 := { team0 with
    totalSubmissions :=
      (setA team0.totalSubmissions problemName (getDA team0.totalSubmissions problemName 0 + 1)) }
  let t2 := { t1 with isSolved := ensureA t1.isSolved problemName false }
  let solved := getDA t2.isSolved problemName false
  if s.isFrozen && !solved then
    let t3 := { t2 with frozenSubmissions :=
      (setA t2.frozenSubmissions problemName (getDA t2.frozenSubmissions problemName 0 + 1)) }
    let fp :=
      if status = Status.accepted then
        setA s.frozenProblems teamName
          (insertSet (getDA s.frozenProblems teamName []) problemName)
      else s.frozenProblems
    some { s with submissions := subs, teams := setA s.teams teamName t3,
                  frozenProblems := fp }
  else
    if !solved then
      if status = Status.accepted then
        let t3 := { t2 with isSolved := setA t2.isSolved problemName true,
                            firstAcceptTime := setA t2.firstAcceptTime problemName time,
                            solvedCount := t2.solvedCount + 1 }
        match t3.getProblemPenalty problemName with
        | none => none
        | some pen =>
          let t4 := { t3 with penaltyTime := t3.penaltyTime + pen }
          some { s with submissions := subs, teams := setA s.teams teamName t4 }
      else
        let t3 := { t2 with wrongSubmissions :=
          (setA t2.wrongSubmissions problemName (getDA t2.wrongSubmissions problemName 0 + 1)) }
        some { s with submissions := subs, teams := setA s.teams teamName t3 }
    else
      some { s with submissions := subs, teams := setA s.teams teamName t2 }

inductive FreezeResult where
  | ok
  | alreadyFrozen
deriving DecidableEq, Repr

def freezeScoreboard (s : SystemState) : SystemState × FreezeResult :=
  if s.isFrozen then (s, FreezeResult.alreadyFrozen)
  else ({ s with isFrozen := true }, FreezeResult.ok)

/-- Tie-break level 3 of the ranking comparator: first differing position of
the descending solve-time lists, compared over the common prefix. -/
def solveTimesLt : List Int → List Int → Option Bool
  | x :: xs, y :: ys => if x ≠ y then some (decide (x < y)) else solveTimesLt xs ys
  | _, _ => none

/-- The ranking comparator from `updateRankings` (a strict "ranks before"). -/
def teamLtB (s : SystemState) (a b : String) : Bool :=
  let ta := getTeamD s a
  let tb := getTeamD s b
  if ta.solvedCount ≠ tb.solvedCount then decide (ta.solvedCount > tb.solvedCount)
  else if ta.penaltyTime ≠ tb.penaltyTime then decide (ta.penaltyTime < tb.penaltyTime)
  else
    match solveTimesLt ta.getSolveTimes tb.getSolveTimes with
    | some r => r
    | none => strLt a b

/-- `ICPCManagementSystem::updateRankings`: full resort of `teamOrder`.
Sorting with the reflexive closure of the strict comparator agrees with
`std::sort` whenever the comparator is a strict total order, which it is on
every state the system reaches (see `teamLtB_connex` etc.): the sorted
permutation is then unique. -/
def updateRankings (s : SystemState) : SystemState :=
  { s with teamOrder := List.insertionSort (fun a b => teamLtB s b a = false) s.teamOrder }

/-- One scoreboard line: team name, rank, solved count, penalty time and the
rendered per-problem cells. -/
structure Row where
  teamName : String
  rank : Nat
  solvedCount : Nat
  penaltyTime : Int
  cells : List String
deriving DecidableEq, Repr

abbrev Scoreboard := List Row

/-- Per-problem cell of `printScoreboard`.  The printed teams all have their
per-problem slots initialized (they are registered before the start), so the
C++ `map::at` reads there cannot fail and defaulted reads are faithful. -/
def renderCell (s : SystemState) (t : Team) (tn p : String) : String :=
  if getDA t.isSolved p false then
    let w := getDA t.wrongSubmissions p 0
    if w = 0 then "+" else "+" ++ toString w
  else if (getDA s.frozenProblems tn []).contains p then
    let w := getDA t.wrongSubmissions p 0
    let c := getDA t.frozenSubmissions p 0
    if w = 0 then "0/" ++ toString c else "-" ++ toString w ++ "/" ++ toString c
  else
    let w := getDA t.wrongSubmissions p 0
    if w = 0 then "." else "-" ++ toString w

def printBoard (s : SystemState) : Scoreboard :=
  s.teamOrder.enum.map (fun e =>
    let t := getTeamD s e.2
    { teamName := e.2, rank := e.1 + 1, solvedCount := t.solvedCount,
      penaltyTime := t.penaltyTime,
      cells := s.problemNames.map (fun p => renderCell s t e.2 p) })

def flushScoreboard (s : SystemState) : SystemState × Scoreboard :=
  let s1 := updateRankings s
  (s1, printBoard s1)

/-- Earliest accepted submission of the team on the problem among those with
`time > 0` (the code's proxy for "received after the freeze"); ties keep the
earliest log position, which has the same timestamp. -/
def firstFrozenACAux (tn p : String) : List Submission → Option Int → Option Int
  | [], acc => acc
  | sub :: rest, acc =>
    if sub.teamName = tn ∧ sub.problemName = p ∧ sub.status = Status.accepted ∧
        sub.time > 0 then
      match acc with
      | none => firstFrozenACAux tn p rest (some sub.time)
      | some t =>
        if sub.time < t then firstFrozenACAux tn p rest (some sub.time)
        else firstFrozenACAux tn p rest (some t)
    else firstFrozenACAux tn p rest acc

def firstFrozenAC (subs : List Submission) (tn p : String) : Option Int :=
  firstFrozenACAux tn p subs none

/-- Team directly ahead of `tn` in a ranking order (first occurrence), as
computed by the displaced-team scan in `scrollScoreboard`. -/
def predecessorIn : List String → String → Option String
  | [], _ => none
  | [x], tn => if x = tn then none else none
  | x :: y :: rest, tn =>
    if x = tn then none
    else if y = tn then some x
    else predecessorIn (y :: rest) tn

/-- Smallest problem name in a nonempty frozen set (the selection loop over
`frozenProblems[teamName]`). -/
def minProblem : List String → String
  | [] => ""
  | p :: rest => rest.foldl (fun acc q => if strLt q acc then q else acc) p

/-- Scan of the current ranking from last place to first for the lowest-ranked
team with a nonempty frozen-problem set. -/
def findRevealIn (s : SystemState) : List String → Option (String × String)
  | [] => none
  | tn :: rest =>
    let l := getDA s.frozenProblems tn []
    if l.isEmpty then findRevealIn s rest
    else some (tn, minProblem l)

def findReveal (s : SystemState) : Option (String × String) :=
  findRevealIn s s.teamOrder.reverse

/-- One iteration of the scroll loop body after the (team, problem) pair has
been selected.  Returns the new state and the ranking-change event (if any);
`none` when `getProblemPenalty` would abort. -/
def revealStep (s : SystemState) (tn p : String) :
    Option (SystemState × Option (String × String)) :=
  let t := getTeamD s tn
  let s1 := { s with frozenProblems :=
    (setA s.frozenProblems tn (eraseSet (getDA s.frozenProblems tn []) p)) }
  if getDA t.frozenSubmissions p 0 > 0 then
    match firstFrozenAC s.submissions tn p with
    | some ft =>
      let t1 := { t with isSolved := setA t.isSolved p true,
                         firstAcceptTime := setA t.firstAcceptTime p ft,
                         solvedCount := t.solvedCount + 1 }
      match t1.getProblemPenalty p with
      | none => none
      | some pen =>
        let t2 := { t1 with penaltyTime := t1.penaltyTime + pen }
        let s2 := { s1 with teams := setA s1.teams tn t2 }
        let s3 := updateRankings s2
        let ev :=
          if s3.teamOrder ≠ s2.teamOrder then
            match predecessorIn s2.teamOrder tn with
            | some r => some (tn, r)
            | none => none
          else none
        let t3 := { t2 with frozenSubmissions := setA t2.frozenSubmissions p 0 }
        some ({ s3 with teams := setA s3.teams tn t3 }, ev)
    | none =>
      let t3 := { t with frozenSubmissions := setA t.frozenSubmissions p 0 }
      some ({ s1 with teams := setA s1.teams tn t3 }, none)
  else
    let t3 := { t with frozenSubmissions := setA t.frozenSubmissions p 0 }
    some ({ s1 with teams := setA s1.teams tn t3 }, none)

/-- Total size of the frozen-problem sets; every loop iteration strictly
decreases it, so it bounds the number of iterations. -/
def fpMeasure (s : SystemState) : Nat :=
  (s.frozenProblems.map (fun e => e.2.length)).sum

/-- The scroll loop, with an explicit iteration bound (`fpMeasure s + 1`
always suffices, see `scrollScoreboard`). -/
def scrollLoop : Nat → SystemState → List (String × String) →
    Option (SystemState × List (String × String))
  | 0, _, _ => none
  | fuel + 1, s, acc =>
    match findReveal s with
    | none => some (s, acc)
    | some (tn, p) =>
      match revealStep s tn p with
      | none => none
      | some (s1, ev) => scrollLoop fuel s1 (acc ++ ev.toList)

inductive ScrollResult where
  | notFrozen
  | ok (initialBoard : Scoreboard)
       (events : List (String × String × Nat × Int))
       (finalBoard : Scoreboard)
deriving DecidableEq, Repr

def scrollScoreboard (s : SystemState) : Option (SystemState × ScrollResult) :=
  if !s.isFrozen then some (s, ScrollResult.notFrozen)
  else
    let s1 := updateRankings s
    let b1 := printBoard s1
    match scrollLoop (fpMeasure s1 + 1) s1 [] with
    | none => none
    | some (s2, changes) =>
      let events := changes.map (fun c =>
        let t := getTeamD s2 c.1
        (c.1, c.2, t.solvedCount, t.penaltyTime))
      let b2 := printBoard s2
      some ({ s2 with isFrozen := false, frozenProblems := [] },
            ScrollResult.ok b1 events b2)

inductive RankResult where
  | notFound
  | found (frozenWarning : Bool) (rank : Option Nat)
deriving DecidableEq, Repr

def rankInFrom : List String → String → Nat → Option Nat
  | [], _, _ => none
  | x :: rest, tn, i => if x = tn then some i else rankInFrom rest tn (i + 1)

def queryRanking (teamName : String) (s : SystemState) : RankResult :=
  if (lookupA s.teams teamName).isNone then RankResult.notFound
  else RankResult.found s.isFrozen (rankInFrom s.teamOrder teamName 1)

inductive SubQueryResult where
  | notFound
  | ok (result : Option Submission)
deriving DecidableEq, Repr

def matchesQuery (tn pf sf : String) (sub : Submission) : Bool :=
  sub.teamName = tn ∧
  (pf = "ALL" ∨ sub.problemName = pf) ∧
  (sf = "ALL" ∨ sub.status = stringToStatus sf)

def querySubmission (teamName problemName statusStr : String) (s : SystemState) :
    SubQueryResult :=
  if (lookupA s.teams teamName).isNone then SubQueryResult.notFound
  else SubQueryResult.ok (s.submissions.reverse.find? (matchesQuery teamName problemName statusStr))

inductive Op where
  | addTeam (name : String)
  | start (duration problemCnt : Int)
  | submit (problem team status : String) (time : Int)
  | flush
  | freeze
  | scroll
  | queryRank (team : String)
  | querySub (team problem status : String)
deriving DecidableEq, Repr

def applyOp (s : SystemState) : Op → Option SystemState
  | Op.addTeam n => some (addTeam n s).1
  | Op.start d c => some (startCompetition d c s).1
  | Op.submit p t st tm => submitProblem p t st tm s
  | Op.flush => some (flushScoreboard s).1
  | Op.freeze => some (freezeScoreboard s).1
  | Op.scroll => (scrollScoreboard s).map (fun r => r.1)
  | Op.queryRank _ => some s
  | Op.querySub _ _ _ => some s

def runOps (s : SystemState) : List Op → Option SystemState
  | [] => some s
  | op :: rest =>
    match applyOp s op with
    | none => none
    | some s1 => runOps s1 rest

end ICPCMS

namespace ICPCMS

/-! ### Association-map lemmas -/

theorem lookupA_setA_self {V : Type} (m : AMap V) (k : String) (v : V) :
    lookupA (setA m k v) k = some v := by
  induction m with
  | nil => simp [setA, lookupA]
  | cons e rest ih =>
    by_cases h : e.1 = k
    · simp [setA, h, lookupA]
    · simp [setA, h, lookupA, ih]

theorem lookupA_setA_ne {V : Type} (m : AMap V) (k q : String) (v : V) (h : q ≠ k) :
    lookupA (setA m k v) q = lookupA m q := by
  have hk : ¬k = q := fun hh => h hh.symm
  induction m with
  | nil => simp [setA, lookupA, hk]
  | cons e rest ih =>
    by_cases he : e.1 = k
    · simp [setA, lookupA, he, hk]
    · simp only [setA, he, if_false, lookupA]
      by_cases hq : e.1 = q <;> simp [hq, ih]

theorem getDA_setA_self {V : Type} (m : AMap V) (k : String) (v d : V) :
    getDA (setA m k v) k d = v := by
  simp [getDA, lookupA_setA_self]

theorem getDA_setA_ne {V : Type} (m : AMap V) (k q : String) (v d : V) (h : q ≠ k) :
    getDA (setA m k v) q d = getDA m q d := by
  simp [getDA, lookupA_setA_ne m k q v h]

theorem ensureA_isSome {V : Type} (m : AMap V) (k : String) (d v : V)
    (h : lookupA m k = some v) : ensureA m k d = m := by
  simp [ensureA, h]

theorem getDA_ensureA {V : Type} (m : AMap V) (k q : String) (d : V) :
    getDA (ensureA m k d) q d = getDA m q d := by
  unfold ensureA
  cases h : lookupA m k with
  | some v => rfl
  | none =>
    by_cases hq : q = k
    · subst hq; simp [getDA, lookupA_setA_self, h]
    · simp [getDA, lookupA_setA_ne m k q d hq]

theorem lookupA_ensureA_ne {V : Type} (m : AMap V) (k q : String) (d : V) (h : q ≠ k) :
    lookupA (ensureA m k d) q = lookupA m q := by
  unfold ensureA
  cases hk : lookupA m k with
  | some v => rfl
  | none => exact lookupA_setA_ne m k q d h

theorem lookupA_mem {V : Type} {m : AMap V} {k : String} {v : V}
    (h : lookupA m k = some v) : (k, v) ∈ m := by
  induction m with
  | nil => simp [lookupA] at h
  | cons e rest ih =>
    by_cases he : e.1 = k
    · simp [lookupA, he] at h
      rw [List.mem_cons]
      left
      obtain ⟨a, b⟩ := e
      simp only at he h
      rw [he, h]
    · simp [lookupA, he] at h
      rw [List.mem_cons]
      right
      exact ih h

/-! ### C10: unrecognized status filter in querySubmission -/

theorem stringToStatus_unknown (tok : String) (h2 : tok ≠ "Accepted")
    (h3 : tok ≠ "Runtime_Error") (h4 : tok ≠ "Time_Limit_Exceed") :
    stringToStatus tok = Status.wrongAnswer := by
  unfold stringToStatus
  rw [if_neg h2]
  by_cases hw : tok = "Wrong_Answer"
  · simp [hw]
  · simp [hw, h3, h4]

/-- C10: a status filter token that is neither "ALL" nor one of the four
recognized labels behaves exactly like the Wrong_Answer filter: for a
registered team the query succeeds and returns the newest logged submission
matching the problem filter with status Wrong_Answer (scanning the log from
newest to oldest), or no result if none matches. -/
theorem querySubmission_unknown_status (s : SystemState) (team pf tok : String)
    (h1 : tok ≠ "ALL") (h2 : tok ≠ "Accepted") (h3 : tok ≠ "Runtime_Error")
    (h4 : tok ≠ "Time_Limit_Exceed") (hreg : (lookupA s.teams team).isSome) :
    querySubmission team pf tok s =
      SubQueryResult.ok (s.submissions.reverse.find? (matchesQuery team pf "Wrong_Answer")) ∧
    querySubmission team pf tok s = querySubmission team pf "Wrong_Answer" s := by
  have hpred : matchesQuery team pf tok = matchesQuery team pf "Wrong_Answer" := by
    funext sub
    simp only [matchesQuery, stringToStatus_unknown tok h2 h3 h4]
    have hwa : stringToStatus "Wrong_Answer" = Status.wrongAnswer := by decide
    rw [hwa]
    simp [h1]
  have hnone : (lookupA s.teams team).isNone = false := by
    cases hx : lookupA s.teams team with
    | none => rw [hx] at hreg; exact absurd hreg (by simp)
    | some t => simp [hx]
  constructor
  · simp [querySubmission, hnone, hpred]
  · simp [querySubmission, hnone, hpred]

theorem querySubmission_unknown_status_witness :
    querySubmission "X" "ALL" "Banana"
        { initState with teams := [("X", Team.new "X")],
                         submissions := [⟨"X", "A", Status.wrongAnswer, 3⟩] } =
      SubQueryResult.ok (some ⟨"X", "A", Status.wrongAnswer, 3⟩) := by
  have h := querySubmission_unknown_status
    { initState with teams := [("X", Team.new "X")],
                     submissions := [⟨"X", "A", Status.wrongAnswer, 3⟩] }
    "X" "ALL" "Banana" (by decide) (by decide) (by decide) (by decide) (by decide)
  rw [h.1]
  decide

end ICPCMS

namespace ICPCMS

/-! ### C8: failing mutating operations leave the state unchanged -/

/-- C8: registering a duplicate team or registering after the start fails with
the corresponding error and does not change the state; freezing an already
frozen board fails and changes nothing; scrolling an unfrozen board fails with
NotFrozen and changes nothing. -/
theorem failing_mutations_no_change (s : SystemState) (n : String) :
    (s.competitionStarted = true → addTeam n s = (s, AddTeamResult.alreadyStarted)) ∧
    (s.competitionStarted = false → (lookupA s.teams n).isSome = true →
      addTeam n s = (s, AddTeamResult.duplicateTeam)) ∧
    (s.isFrozen = true → freezeScoreboard s = (s, FreezeResult.alreadyFrozen)) ∧
    (s.isFrozen = false → scrollScoreboard s = some (s, ScrollResult.notFrozen)) := by
  refine ⟨?_, ?_, ?_, ?_⟩
  · intro h; simp [addTeam, h]
  · intro h1 h2; simp [addTeam, h1, h2]
  · intro h; simp [freezeScoreboard, h]
  · intro h; simp [scrollScoreboard, h]

theorem failing_mutations_no_change_witness :
    (addTeam "X" { initState with competitionStarted := true } =
      ({ initState with competitionStarted := true }, AddTeamResult.alreadyStarted)) ∧
    (addTeam "X" (addTeam "X" initState).1 =
      ((addTeam "X" initState).1, AddTeamResult.duplicateTeam)) ∧
    (freezeScoreboard { initState with isFrozen := true } =
      ({ initState with isFrozen := true }, FreezeResult.alreadyFrozen)) ∧
    (scrollScoreboard initState = some (initState, ScrollResult.notFrozen)) :=
  ⟨(failing_mutations_no_change { initState with competitionStarted := true } "X").1 rfl,
   (failing_mutations_no_change (addTeam "X" initState).1 "X").2.1 (by decide) (by decide),
   (failing_mutations_no_change { initState with isFrozen := true } "X").2.2.1 rfl,
   (failing_mutations_no_change initState "X").2.2.2 rfl⟩

/-! ### C4: frame effect of submissions while frozen -/

/-- C4: while the board is frozen, a submission on a problem the team has not
solved only increments that problem's total and frozen-pending counters and
(exactly for Accepted) adds the problem to the team's frozen set, leaving the
solved flags, first-accept times, wrong counts, solved count and penalty time
unchanged; a submission on an already solved problem only increments the total
counter. -/
theorem submit_frozen_frame (s : SystemState) (p tn st : String) (tm : Int)
    (hf : s.isFrozen = true) :
    (getDA (getTeamD s tn).isSolved p false = false →
      ∃ s', submitProblem p tn st tm s = some s' ∧
        s'.submissions = s.submissions ++ [⟨tn, p, stringToStatus st, tm⟩] ∧
        getDA (getTeamD s' tn).totalSubmissions p 0 =
          getDA (getTeamD s tn).totalSubmissions p 0 + 1 ∧
        getDA (getTeamD s' tn).frozenSubmissions p 0 =
          getDA (getTeamD s tn).frozenSubmissions p 0 + 1 ∧
        (∀ q, getDA (getTeamD s' tn).isSolved q false =
          getDA (getTeamD s tn).isSolved q false) ∧
        (getTeamD s' tn).firstAcceptTime = (getTeamD s tn).firstAcceptTime ∧
        (getTeamD s' tn).wrongSubmissions = (getTeamD s tn).wrongSubmissions ∧
        (getTeamD s' tn).solvedCount = (getTeamD s tn).solvedCount ∧
        (getTeamD s' tn).penaltyTime = (getTeamD s tn).penaltyTime ∧
        (∀ q, q ≠ p → getDA (getTeamD s' tn).totalSubmissions q 0 =
          getDA (getTeamD s tn).totalSubmissions q 0) ∧
        (∀ q, q ≠ p → getDA (getTeamD s' tn).frozenSubmissions q 0 =
          getDA (getTeamD s tn).frozenSubmissions q 0) ∧
        (∀ n, n ≠ tn → lookupA s'.teams n = lookupA s.teams n) ∧
        getDA s'.frozenProblems tn [] =
          (if stringToStatus st = Status.accepted
           then insertSet (getDA s.frozenProblems tn []) p
           else getDA s.frozenProblems tn [])) ∧
    (getDA (getTeamD s tn).isSolved p false = true →
      ∃ s', submitProblem p tn st tm s = some s' ∧
        s'.submissions = s.submissions ++ [⟨tn, p, stringToStatus st, tm⟩] ∧
        getDA (getTeamD s' tn).totalSubmissions p 0 =
          getDA (getTeamD s tn).totalSubmissions p 0 + 1 ∧
        (∀ q, q ≠ p → getDA (getTeamD s' tn).totalSubmissions q 0 =
          getDA (getTeamD s tn).totalSubmissions q 0) ∧
        (getTeamD s' tn).isSolved = (getTeamD s tn).isSolved ∧
        (getTeamD s' tn).firstAcceptTime = (getTeamD s tn).firstAcceptTime ∧
        (getTeamD s' tn).wrongSubmissions = (getTeamD s tn).wrongSubmissions ∧
        (getTeamD s' tn).frozenSubmissions = (getTeamD s tn).frozenSubmissions ∧
        (getTeamD s' tn).solvedCount = (getTeamD s tn).solvedCount ∧
        (getTeamD s' tn).penaltyTime = (getTeamD s tn).penaltyTime ∧
        (∀ n, n ≠ tn → lookupA s'.teams n = lookupA s.teams n) ∧
        s'.frozenProblems = s.frozenProblems) := by
  constructor
  · intro hns
    have hens : getDA (ensureA (getTeamD s tn).isSolved p false) p false = false := by
      rw [getDA_ensureA]; exact hns
    simp only [submitProblem, hf, hens, Bool.not_false, Bool.true_and, if_true]
    refine ⟨_, rfl, ?_⟩
    and_intros
    · rfl
    · simp [getTeamD, lookupA_setA_self, getDA_setA_self]
    · simp [getTeamD, lookupA_setA_self, getDA_setA_self]
    · intro q
      by_cases hq : q = p
      · subst hq
        simp [getTeamD, lookupA_setA_self, getDA_ensureA, hns]
      · simp [getTeamD, lookupA_setA_self, getDA, lookupA_ensureA_ne _ _ _ _ hq]
    · simp [getTeamD, lookupA_setA_self]
    · simp [getTeamD, lookupA_setA_self]
    · simp [getTeamD, lookupA_setA_self]
    · simp [getTeamD, lookupA_setA_self]
    · intro q hq
      simp [getTeamD, lookupA_setA_self, getDA_setA_ne _ _ _ _ _ hq]
    · intro q hq
      simp [getTeamD, lookupA_setA_self, getDA_setA_ne _ _ _ _ _ hq]
    · intro n hn
      by_cases hacc : stringToStatus st = Status.accepted <;>
        simp [hacc, lookupA_setA_ne _ _ _ _ hn]
    · by_cases hacc : stringToStatus st = Status.accepted <;>
        simp [hacc, getDA_setA_self]
  · intro hsol
    have hsome : ∃ b, lookupA (getTeamD s tn).isSolved p = some b := by
      cases hx : lookupA (getTeamD s tn).isSolved p with
      | none => rw [getDA, hx] at hsol; simp at hsol
      | some b => exact ⟨b, rfl⟩
    obtain ⟨b, hb⟩ := hsome
    have hbtrue : b = true := by
      rw [getDA, hb] at hsol; simpa using hsol
    subst hbtrue
    have hensid : ensureA (getTeamD s tn).isSolved p false = (getTeamD s tn).isSolved :=
      ensureA_isSome _ _ _ _ hb
    have hens : getDA (ensureA (getTeamD s tn).isSolved p false) p false = true := by
      rw [getDA_ensureA]; exact hsol
    simp only [submitProblem, hf, hens, Bool.not_true, Bool.and_false, if_false,
      Bool.false_eq_true]
    refine ⟨_, rfl, ?_⟩
    and_intros
    · rfl
    · simp [getTeamD, lookupA_setA_self, getDA_setA_self]
    · intro q hq
      simp [getTeamD, lookupA_setA_self, getDA_setA_ne _ _ _ _ _ hq]
    · simp only [getTeamD] at hensid
      simp [getTeamD, lookupA_setA_self, hensid]
    · simp [getTeamD, lookupA_setA_self]
    · simp [getTeamD, lookupA_setA_self]
    · simp [getTeamD, lookupA_setA_self]
    · simp [getTeamD, lookupA_setA_self]
    · simp [getTeamD, lookupA_setA_self]
    · intro n hn
      exact lookupA_setA_ne _ _ _ _ hn
    · rfl

end ICPCMS

namespace ICPCMS

theorem submit_frozen_frame_witness :
    (freezeScoreboard (startCompetition 300 1 (addTeam "T" initState).1).1).1.isFrozen = true ∧
    ∃ s', submitProblem "A" "T" "Accepted" 10
        (freezeScoreboard (startCompetition 300 1 (addTeam "T" initState).1).1).1 = some s' ∧
      getDA (getTeamD s' "T").frozenSubmissions "A" 0 = 1 ∧
      (getTeamD s' "T").penaltyTime = 0 ∧
      (getTeamD s' "T").solvedCount = 0 := by
  refine ⟨by decide, ?_⟩
  obtain ⟨s', heq, hsubs, htot, hfroz, hsolv, hfat, hwrong, hcount, hpen, htne,
      hfne, hteams, hfp⟩ :=
    (submit_frozen_frame (freezeScoreboard (startCompetition 300 1 (addTeam "T" initState).1).1).1
      "A" "T" "Accepted" 10 (by decide)).1 (by decide)
  refine ⟨s', heq, ?_, ?_, ?_⟩
  · rw [hfroz]; decide
  · rw [hpen]; decide
  · rw [hcount]; decide

/-! ### C1: the scroll reveal misses a frozen Accepted submission at time 0 -/

/-- C1 (code bug evidence): with the board frozen, an Accepted submission at
timestamp 0 is parked as frozen-pending, but the scroll reveal searches only
submissions with `time > 0` (the code comment says "time > 0 indicates after
freeze"), so the accepted frozen submission is discarded: after the scroll the
problem is still unsolved, nothing was added to solvedCount or penaltyTime,
and the frozen-pending counter was reset. -/
theorem scroll_misses_frozen_accept_at_time_zero :
    (runOps initState [Op.addTeam "T", Op.start 300 1, Op.freeze,
        Op.submit "A" "T" "Accepted" 0, Op.scroll]).map (fun s =>
      (s.submissions, (getTeamD s "T").solvedCount,
       getDA (getTeamD s "T").isSolved "A" false,
       getDA (getTeamD s "T").frozenSubmissions "A" 0,
       (getTeamD s "T").penaltyTime)) =
    some ([⟨"T", "A", Status.accepted, 0⟩], 0, false, 0, 0) := by
  decide

/-! ### C5: which cells are rendered in the frozen-pending form -/

/-- C5 (counterexample): a problem with a pending submission received while
frozen (`frozenPendingCount = 1`) but no frozen Accepted submission is NOT in
the frozen-problem set, and the flush snapshot renders its cell as "." instead
of the frozen-pending form "0/1". -/
theorem flush_pending_cell_counterexample :
    (runOps initState [Op.addTeam "T", Op.start 300 1, Op.freeze,
        Op.submit "A" "T" "Wrong_Answer" 1]).map (fun s =>
      ((flushScoreboard s).2,
       getDA (getTeamD s "T").frozenSubmissions "A" 0,
       getDA (getTeamD s "T").isSolved "A" false)) =
    some ([{ teamName := "T", rank := 1, solvedCount := 0, penaltyTime := 0,
             cells := ["."] }], 1, false) := by
  decide

end ICPCMS

namespace ICPCMS

/-- C5 (amended): in every flush snapshot, row `i` shows the `i`-th team of the
recomputed order with rank `i+1`, its solvedCount and penaltyTime, and one
rendered cell per problem; a cell is rendered in the frozen-pending form
`wrongBefore/frozenPendingCount` (prefixed `-` if `wrongBefore > 0`, else `0`)
exactly when the problem is unsolved and in the team's frozen-problem set
(i.e. some Accepted submission arrived while frozen and is not yet revealed);
solved cells use `+` plus the wrong count if positive, and other unsolved
cells use `.` or `-wrongCount`. -/
theorem flush_cell_rule (s : SystemState) :
    (∀ i tn, (updateRankings s).teamOrder.get? i = some tn →
      (flushScoreboard s).2.get? i = some ⟨tn, i + 1, (getTeamD s tn).solvedCount,
        (getTeamD s tn).penaltyTime,
        s.problemNames.map (renderCell (updateRankings s) (getTeamD s tn) tn)⟩) ∧
    (∀ t tn p,
      (getDA t.isSolved p false = true →
        renderCell (updateRankings s) t tn p =
          (if getDA t.wrongSubmissions p 0 = 0 then "+"
           else "+" ++ toString (getDA t.wrongSubmissions p 0))) ∧
      (getDA t.isSolved p false = false →
        ((getDA s.frozenProblems tn []).contains p = true →
          renderCell (updateRankings s) t tn p =
            (if getDA t.wrongSubmissions p 0 = 0
             then "0/" ++ toString (getDA t.frozenSubmissions p 0)
             else "-" ++ toString (getDA t.wrongSubmissions p 0) ++ "/" ++
               toString (getDA t.frozenSubmissions p 0))) ∧
        ((getDA s.frozenProblems tn []).contains p = false →
          renderCell (updateRankings s) t tn p =
            (if getDA t.wrongSubmissions p 0 = 0 then "."
             else "-" ++ toString (getDA t.wrongSubmissions p 0))))) := by
  have hteams : (updateRankings s).teams = s.teams := rfl
  have hpn : (updateRankings s).problemNames = s.problemNames := rfl
  have hfp : (updateRankings s).frozenProblems = s.frozenProblems := rfl
  constructor
  · intro i tn h
    have h' : (updateRankings s).teamOrder[i]? = some tn := by
      rw [← List.get?_eq_getElem?]; exact h
    simp [flushScoreboard, printBoard, List.getElem?_map, List.getElem?_enum, h',
      hteams, hpn, getTeamD]
  · intro t tn p
    refine ⟨?_, ?_⟩
    · intro h
      simp [renderCell, h]
    · intro h
      constructor
      · intro hc
        have hc' : p ∈ getDA s.frozenProblems tn [] := by
          simpa using hc
        simp [renderCell, h, hfp, hc']
      · intro hc
        have hc' : p ∉ getDA s.frozenProblems tn [] := by
          simpa using hc
        simp [renderCell, h, hfp, hc']

def c5WitnessTeam : Team :=
  { name := "T", solvedCount := 0, penaltyTime := 0,
    wrongSubmissions := [("A", 0)], firstAcceptTime := [("A", 0)],
    isSolved := [("A", false)], totalSubmissions := [("A", 1)],
    frozenSubmissions := [("A", 1)] }

def c5WitnessState : SystemState :=
  { initState with
    competitionStarted := true, isFrozen := true,
    problemCount := 1, problemNames := ["A"], teamOrder := ["T"],
    teams := [("T", c5WitnessTeam)],
    frozenProblems := [("T", ["A"])] }

theorem flush_cell_rule_witness :
    (flushScoreboard c5WitnessState).2.get? 0 =
      some ⟨"T", 1, 0, 0, ["0/1"]⟩ := by
  have h := (flush_cell_rule c5WitnessState).1 0 "T" (by decide)
  rw [h]
  decide

/-! ### C9: submissions by unregistered teams -/

/-- C9 (counterexample): an unfrozen Accepted submission for a team name that
was never registered aborts the program (missing `wrongSubmissions` key inside
`getProblemPenalty`) instead of succeeding. -/
theorem submit_unregistered_accept_aborts :
    runOps initState [Op.addTeam "X", Op.start 300 1,
      Op.submit "A" "Ghost" "Accepted" 5] = none := by
  decide

theorem rankInFrom_not_mem (l : List String) (tn : String) :
    ∀ i, tn ∉ l → rankInFrom l tn i = none := by
  induction l with
  | nil => intro i h; rfl
  | cons x rest ih =>
    intro i h
    have hx : ¬x = tn := fun hh => h (hh ▸ List.mem_cons_self x rest)
    simp only [rankInFrom, hx, if_false]
    exact ih _ (fun hm => h (List.mem_cons_of_mem x hm))

/-- C9 (amended): a submission for a never-registered team name does not fail
provided it is not an unfrozen Accepted (which aborts, see the counterexample):
it silently creates a fresh team record in the registry (zero solved count and
penalty), after which queryRanking and querySubmission succeed rather than
failing with "cannot find the team", yet the name never enters the ranking
order, so queryRanking reports no rank position. -/
theorem submit_unregistered_creates_phantom (s : SystemState) (p tn st : String)
    (tm : Int) (hunreg : lookupA s.teams tn = none) (hnord : tn ∉ s.teamOrder)
    (hsafe : stringToStatus st ≠ Status.accepted ∨ s.isFrozen = true) :
    ∃ s', submitProblem p tn st tm s = some s' ∧
      (∃ t, lookupA s'.teams tn = some t ∧ t.solvedCount = 0 ∧ t.penaltyTime = 0) ∧
      queryRanking tn s' = RankResult.found s'.isFrozen none ∧
      querySubmission tn "ALL" "ALL" s' ≠ SubQueryResult.notFound ∧
      tn ∉ s'.teamOrder := by
  have hteam : getTeamD s tn = Team.new "" := by
    simp [getTeamD, hunreg]
  have hns0 : getDA (ensureA (Team.new "").isSolved p false) p false = false := by
    rw [getDA_ensureA]; rfl
  by_cases hfz : s.isFrozen = true
  · simp only [submitProblem, hteam, hns0, hfz, Bool.not_false, Bool.true_and, if_true]
    refine ⟨_, rfl, ⟨_, lookupA_setA_self _ _ _, rfl, rfl⟩, ?_, ?_, hnord⟩
    · simp [queryRanking, lookupA_setA_self, rankInFrom_not_mem _ _ _ hnord]
    · simp [querySubmission, lookupA_setA_self]
  · have hacc : stringToStatus st ≠ Status.accepted := by
      rcases hsafe with h | h
      · exact h
      · exact absurd h hfz
    have hfz' : s.isFrozen = false := by
      cases hx : s.isFrozen
      · rfl
      · exact absurd hx hfz
    simp only [submitProblem, hteam, hns0, hfz', Bool.false_and, Bool.not_false,
      if_false, if_neg hacc, Bool.false_eq_true, if_true]
    refine ⟨_, rfl, ⟨_, lookupA_setA_self _ _ _, rfl, rfl⟩, ?_, ?_, hnord⟩
    · simp [queryRanking, lookupA_setA_self, rankInFrom_not_mem _ _ _ hnord]
    · simp [querySubmission, lookupA_setA_self]

def c9WitnessState : SystemState :=
  (startCompetition 300 1 (addTeam "X" initState).1).1

theorem submit_unregistered_creates_phantom_witness :
    lookupA c9WitnessState.teams "Ghost" = none ∧
    "Ghost" ∉ c9WitnessState.teamOrder ∧
    stringToStatus "Wrong_Answer" ≠ Status.accepted ∧
    ∃ s', submitProblem "A" "Ghost" "Wrong_Answer" 5 c9WitnessState = some s' ∧
      (∃ t, lookupA s'.teams "Ghost" = some t ∧ t.solvedCount = 0 ∧ t.penaltyTime = 0) ∧
      queryRanking "Ghost" s' = RankResult.found s'.isFrozen none ∧
      querySubmission "Ghost" "ALL" "ALL" s' ≠ SubQueryResult.notFound ∧
      "Ghost" ∉ s'.teamOrder :=
  ⟨by decide, by decide, by decide,
   submit_unregistered_creates_phantom c9WitnessState
     "A" "Ghost" "Wrong_Answer" 5 (by decide) (by decide) (Or.inl (by decide))⟩

end ICPCMS

namespace ICPCMS

/-! ### C3: the recomputed ranking order -/

theorem solveTimesLt_self (x : List Int) : solveTimesLt x x = none := by
  induction x with
  | nil => rfl
  | cons a rest ih => simp [solveTimesLt, ih]

theorem solveTimesLt_swap (x y : List Int) (b : Bool) (h : solveTimesLt x y = some b) :
    solveTimesLt y x = some (!b) := by
  induction x generalizing y b with
  | nil => cases y <;> simp [solveTimesLt] at h
  | cons a xs ih =>
    cases y with
    | nil => simp [solveTimesLt] at h
    | cons c ys =>
      by_cases hac : a = c
      · subst hac
        simp only [solveTimesLt, ne_eq, not_true_eq_false, if_false] at h ⊢
        exact ih _ _ h
      · have hca : ¬c = a := fun hh => hac hh.symm
        simp only [solveTimesLt, ne_eq, hac, hca, not_false_eq_true, if_true,
          Option.some_inj] at h ⊢
        subst h
        by_cases hlt : a < c
        · simp [hlt]
          omega
        · simp [hlt]
          omega

theorem solveTimesLt_none_symm (x y : List Int) (h : solveTimesLt x y = none) :
    solveTimesLt y x = none := by
  cases hyx : solveTimesLt y x with
  | none => rfl
  | some b =>
    have := solveTimesLt_swap y x b hyx
    rw [h] at this
    exact absurd this (by simp)

theorem solveTimesLt_none_eq (x y : List Int) (hlen : x.length = y.length)
    (h : solveTimesLt x y = none) : x = y := by
  induction x generalizing y with
  | nil =>
    cases y with
    | nil => rfl
    | cons c ys => simp at hlen
  | cons a xs ih =>
    cases y with
    | nil => simp at hlen
    | cons c ys =>
      by_cases hac : a = c
      · subst hac
        simp only [solveTimesLt, ne_eq, not_true_eq_false, if_false] at h
        have := ih ys (by simpa using hlen) h
        rw [this]
      · simp [solveTimesLt, hac] at h

theorem solveTimesLt_trans (x y z : List Int) (h1 : solveTimesLt x y = some true)
    (h2 : solveTimesLt y z = some true) : solveTimesLt x z = some true := by
  induction x generalizing y z with
  | nil => cases y <;> simp [solveTimesLt] at h1
  | cons a xs ih =>
    cases y with
    | nil => simp [solveTimesLt] at h1
    | cons c ys =>
      cases z with
      | nil => simp [solveTimesLt] at h2
      | cons e zs =>
        by_cases hac : a = c
        · subst hac
          simp only [solveTimesLt, ne_eq, not_true_eq_false, if_false] at h1
          by_cases hce : a = e
          · subst hce
            simp only [solveTimesLt, ne_eq, not_true_eq_false, if_false] at h2 ⊢
            exact ih _ _ h1 h2
          · simp only [solveTimesLt, ne_eq, hce, not_false_eq_true, if_true,
              Option.some_inj] at h2 ⊢
            exact h2
        · simp only [solveTimesLt, ne_eq, hac, not_false_eq_true, if_true,
            Option.some_inj, decide_eq_true_eq] at h1
          by_cases hce : c = e
          · subst hce
            simp only [solveTimesLt, ne_eq, hac, not_false_eq_true, if_true,
              Option.some_inj, decide_eq_true_eq]
            exact h1
          · simp only [solveTimesLt, ne_eq, hce, not_false_eq_true, if_true,
              Option.some_inj, decide_eq_true_eq] at h2
            have hae : a < e := lt_trans h1 h2
            have hane : a ≠ e := ne_of_lt hae
            simp only [solveTimesLt, ne_eq, hane, not_false_eq_true, if_true,
              Option.some_inj, decide_eq_true_eq]
            exact hae

theorem charListLt_irrefl (l : List Char) : charListLt l l = false := by
  induction l with
  | nil => rfl
  | cons a as ih => simp [charListLt, ih]

theorem strLt_irrefl (a : String) : strLt a a = false :=
  charListLt_irrefl a.data

theorem charListLt_asymm (x y : List Char) (h : charListLt x y = true) :
    charListLt y x = false := by
  induction x generalizing y with
  | nil =>
    cases y with
    | nil => simp [charListLt] at h
    | cons b bs => rfl
  | cons a as ih =>
    cases y with
    | nil => simp [charListLt] at h
    | cons b bs =>
      by_cases hab : a.toNat < b.toNat
      · simp [charListLt, hab]
        omega
      · by_cases hba : b.toNat < a.toNat
        · simp [charListLt, hab, hba] at h
        · simp only [charListLt, hab, hba, if_false] at h
          simp only [charListLt, hab, hba, if_false]
          exact ih bs h

theorem strLt_asymm (a b : String) (h : strLt a b = true) : strLt b a = false :=
  charListLt_asymm a.data b.data h

theorem charListLt_trans (x y z : List Char) (h1 : charListLt x y = true)
    (h2 : charListLt y z = true) : charListLt x z = true := by
  induction x generalizing y z with
  | nil =>
    cases y with
    | nil => simp [charListLt] at h1
    | cons b bs =>
      cases z with
      | nil => simp [charListLt] at h2
      | cons c cs => rfl
  | cons a as ih =>
    cases y with
    | nil => simp [charListLt] at h1
    | cons b bs =>
      cases z with
      | nil => simp [charListLt] at h2
      | cons c cs =>
        simp only [charListLt] at h1 h2 ⊢
        by_cases hab : a.toNat < b.toNat <;> by_cases hbc : b.toNat < c.toNat
        · rw [if_pos (by omega)]
        · simp only [hbc, if_false] at h2
          by_cases hcb : c.toNat < b.toNat
          · simp [hcb] at h2
          · rw [if_pos (by omega)]
        · simp only [hab, if_false] at h1
          by_cases hba : b.toNat < a.toNat
          · simp [hba] at h1
          · rw [if_pos (by omega)]
        · simp only [hab, if_false] at h1
          simp only [hbc, if_false] at h2
          by_cases hba : b.toNat < a.toNat
          · simp [hba] at h1
          · by_cases hcb : c.toNat < b.toNat
            · simp [hcb] at h2
            · simp only [hba, if_false] at h1
              simp only [hcb, if_false] at h2
              rw [if_neg (by omega), if_neg (by omega)]
              exact ih bs cs h1 h2

theorem strLt_trans (a b c : String) (h1 : strLt a b = true) (h2 : strLt b c = true) :
    strLt a c = true :=
  charListLt_trans a.data b.data c.data h1 h2

theorem charListLt_connex (x y : List Char) (h1 : charListLt x y = false)
    (h2 : charListLt y x = false) : x = y := by
  induction x generalizing y with
  | nil =>
    cases y with
    | nil => rfl
    | cons b bs => simp [charListLt] at h1
  | cons a as ih =>
    cases y with
    | nil => simp [charListLt] at h2
    | cons b bs =>
      simp only [charListLt] at h1 h2
      by_cases hab : a.toNat < b.toNat
      · simp [hab] at h1
      · by_cases hba : b.toNat < a.toNat
        · simp [hba] at h2
        · simp only [hab, hba, if_false] at h1 h2
          have hnat : a.toNat = b.toNat := by omega
          have hchar : a = b := Char.ext (UInt32.toNat.inj hnat)
          rw [hchar, ih bs h1 h2]

theorem strLt_connex (a b : String) (h1 : strLt a b = false)
    (h2 : strLt b a = false) : a = b :=
  String.ext (charListLt_connex a.data b.data h1 h2)

/-- The comparator branch structure, spelled out as a lexicographic condition. -/
theorem teamLtB_iff (s : SystemState) (a b : String) : teamLtB s a b = true ↔
    ((getTeamD s b).solvedCount < (getTeamD s a).solvedCount ∨
     ((getTeamD s a).solvedCount = (getTeamD s b).solvedCount ∧
      ((getTeamD s a).penaltyTime < (getTeamD s b).penaltyTime ∨
       ((getTeamD s a).penaltyTime = (getTeamD s b).penaltyTime ∧
        (solveTimesLt (getTeamD s a).getSolveTimes (getTeamD s b).getSolveTimes =
            some true ∨
         (solveTimesLt (getTeamD s a).getSolveTimes (getTeamD s b).getSolveTimes =
            none ∧ strLt a b = true)))))) := by
  simp only [teamLtB]
  by_cases h1 : (getTeamD s a).solvedCount = (getTeamD s b).solvedCount
  · rw [if_neg (not_not_intro h1)]
    by_cases h2 : (getTeamD s a).penaltyTime = (getTeamD s b).penaltyTime
    · rw [if_neg (not_not_intro h2)]
      cases hst : solveTimesLt (getTeamD s a).getSolveTimes (getTeamD s b).getSolveTimes with
      | some r =>
        cases r with
        | true =>
          constructor
          · intro _
            exact Or.inr ⟨h1, Or.inr ⟨h2, Or.inl rfl⟩⟩
          · intro _
            rfl
        | false =>
          constructor
          · intro h
            exact Bool.noConfusion h
          · rintro (h | ⟨_, h | ⟨_, h | ⟨h, _⟩⟩⟩)
            · omega
            · omega
            · simp at h
            · simp at h
      | none =>
        constructor
        · intro h
          exact Or.inr ⟨h1, Or.inr ⟨h2, Or.inr ⟨rfl, h⟩⟩⟩
        · rintro (h | ⟨_, h | ⟨_, h | ⟨_, h⟩⟩⟩)
          · omega
          · omega
          · simp at h
          · exact h
    · rw [if_pos h2]
      constructor
      · intro h
        exact Or.inr ⟨h1, Or.inl (of_decide_eq_true h)⟩
      · rintro (h | ⟨_, h | ⟨heq, _⟩⟩)
        · omega
        · exact decide_eq_true h
        · exact absurd heq h2
  · rw [if_pos h1]
    constructor
    · intro h
      exact Or.inl (of_decide_eq_true h)
    · rintro (h | ⟨heq, _⟩)
      · exact decide_eq_true h
      · exact absurd heq h1

theorem teamLtB_irrefl (s : SystemState) (a : String) : teamLtB s a a = false := by
  cases h : teamLtB s a a with
  | false => rfl
  | true =>
    rw [teamLtB_iff] at h
    rcases h with h | ⟨_, h | ⟨_, h | ⟨_, h⟩⟩⟩
    · omega
    · omega
    · rw [solveTimesLt_self] at h; exact absurd h (by simp)
    · rw [strLt_irrefl] at h; exact absurd h (by simp)

theorem teamLtB_asymm (s : SystemState) (a b : String) (h : teamLtB s a b = true) :
    teamLtB s b a = false := by
  cases hba : teamLtB s b a with
  | false => rfl
  | true =>
    rw [teamLtB_iff] at h hba
    rcases h with h1 | ⟨he1, h1 | ⟨hp1, h1 | ⟨hn1, h1⟩⟩⟩ <;>
      rcases hba with g1 | ⟨ge1, g1 | ⟨gp1, g1 | ⟨gn1, g1⟩⟩⟩
    · omega
    · omega
    · omega
    · omega
    · omega
    · omega
    · omega
    · omega
    · omega
    · omega
    · have hsw := solveTimesLt_swap _ _ _ h1
      rw [g1] at hsw
      simp at hsw
    · have hsw := solveTimesLt_swap _ _ _ h1
      rw [gn1] at hsw
      simp at hsw
    · omega
    · omega
    · have hsw := solveTimesLt_none_symm _ _ hn1
      rw [g1] at hsw
      simp at hsw
    · rw [strLt_asymm a b h1] at g1; exact absurd g1 (by simp)

theorem teamLtB_connex (s : SystemState) (a b : String)
    (hab : teamLtB s a b = false) (hba : teamLtB s b a = false) : a = b := by
  have hab' : ¬(teamLtB s a b = true) := by simp [hab]
  have hba' : ¬(teamLtB s b a = true) := by simp [hba]
  rw [teamLtB_iff] at hab' hba'
  push_neg at hab' hba'
  have hcnt : (getTeamD s a).solvedCount = (getTeamD s b).solvedCount := by
    have := hab'.1
    have := hba'.1
    omega
  have hpen : (getTeamD s a).penaltyTime = (getTeamD s b).penaltyTime := by
    have h1 := (hab'.2 hcnt).1
    have h2 := (hba'.2 hcnt.symm).1
    omega
  cases hst : solveTimesLt (getTeamD s a).getSolveTimes (getTeamD s b).getSolveTimes with
  | some r =>
    cases r with
    | true => exact absurd hst ((hab'.2 hcnt).2 hpen).1
    | false =>
      have := solveTimesLt_swap _ _ _ hst
      exact absurd this ((hba'.2 hcnt.symm).2 hpen.symm).1
  | none =>
    have hnab := ((hab'.2 hcnt).2 hpen).2 hst
    have hnba := ((hba'.2 hcnt.symm).2 hpen.symm).2 (solveTimesLt_none_symm _ _ hst)
    exact strLt_connex a b (by simpa using hnab) (by simpa using hnba)

def countsConsistent (s : SystemState) : Prop :=
  ∀ e ∈ s.teams, (e : String × Team).2.solvedCount = e.2.getSolveTimes.length

theorem countsConsistent_getTeamD {s : SystemState} (h : countsConsistent s)
    (n : String) : (getTeamD s n).solvedCount = (getTeamD s n).getSolveTimes.length := by
  unfold getTeamD
  cases hx : lookupA s.teams n with
  | none => rfl
  | some t => exact h (n, t) (lookupA_mem hx)

theorem teamLtB_trans {s : SystemState} (hcc : countsConsistent s) (a b c : String)
    (h1 : teamLtB s a b = true) (h2 : teamLtB s b c = true) : teamLtB s a c = true := by
  rw [teamLtB_iff] at h1 h2 ⊢
  rcases h1 with h1 | ⟨he1, h1 | ⟨hp1, h1 | ⟨hn1, h1⟩⟩⟩ <;>
    rcases h2 with h2 | ⟨he2, h2 | ⟨hp2, h2 | ⟨hn2, h2⟩⟩⟩
  · exact Or.inl (by omega)
  · exact Or.inl (by omega)
  · exact Or.inl (by omega)
  · exact Or.inl (by omega)
  · exact Or.inl (by omega)
  · exact Or.inr ⟨by omega, Or.inl (by omega)⟩
  · exact Or.inr ⟨by omega, Or.inl (by omega)⟩
  · exact Or.inr ⟨by omega, Or.inl (by omega)⟩
  · exact Or.inl (by omega)
  · exact Or.inr ⟨by omega, Or.inl (by omega)⟩
  · -- times < times
    exact Or.inr ⟨by omega, Or.inr ⟨by omega, Or.inl (solveTimesLt_trans _ _ _ h1 h2)⟩⟩
  · -- times < then equal lists
    have hlen : (getTeamD s b).getSolveTimes.length = (getTeamD s c).getSolveTimes.length := by
      have hb := countsConsistent_getTeamD hcc b
      have hc := countsConsistent_getTeamD hcc c
      omega
    have heqt := solveTimesLt_none_eq _ _ hlen hn2
    exact Or.inr ⟨by omega, Or.inr ⟨by omega, Or.inl (heqt ▸ h1)⟩⟩
  · exact Or.inl (by omega)
  · exact Or.inr ⟨by omega, Or.inl (by omega)⟩
  · -- equal lists then times <
    have hlen : (getTeamD s a).getSolveTimes.length = (getTeamD s b).getSolveTimes.length := by
      have ha := countsConsistent_getTeamD hcc a
      have hb := countsConsistent_getTeamD hcc b
      omega
    have heqt := solveTimesLt_none_eq _ _ hlen hn1
    exact Or.inr ⟨by omega, Or.inr ⟨by omega, Or.inl (heqt ▸ h2)⟩⟩
  · -- both none: names
    have hlen : (getTeamD s a).getSolveTimes.length = (getTeamD s b).getSolveTimes.length := by
      have ha := countsConsistent_getTeamD hcc a
      have hb := countsConsistent_getTeamD hcc b
      omega
    have heqt := solveTimesLt_none_eq _ _ hlen hn1
    exact Or.inr ⟨by omega, Or.inr ⟨by omega, Or.inr ⟨heqt ▸ hn2, strLt_trans a b c h1 h2⟩⟩⟩

end ICPCMS

namespace ICPCMS

/-- C3: whenever the ranking order is recomputed, the result is a permutation
of the previous order (hence of exactly the registered teams) and is pairwise
strictly sorted by the comparator: higher solvedCount first, then lower
penaltyTime, then the position-by-position comparison of the sorted-descending
solve-time lists (smaller value at the first differing position first), then
ascending lexicographic team name; the comparator is irreflexive, and no two
distinct teams compare equal (both directions false forces equal names). -/
theorem updateRankings_order (s : SystemState) (hcc : countsConsistent s)
    (hnd : s.teamOrder.Nodup) :
    (updateRankings s).teamOrder.Perm s.teamOrder ∧
    (updateRankings s).teamOrder.Pairwise (fun a b => teamLtB s a b = true) ∧
    (∀ a, teamLtB s a a = false) ∧
    (∀ a b, teamLtB s a b = false → teamLtB s b a = false → a = b) := by
  have hperm : (updateRankings s).teamOrder.Perm s.teamOrder :=
    List.perm_insertionSort _ _
  refine ⟨hperm, ?_, teamLtB_irrefl s, teamLtB_connex s⟩
  have htot : ∀ a b : String, teamLtB s b a = false ∨ teamLtB s a b = false := by
    intro a b
    cases hx : teamLtB s b a with
    | false => exact Or.inl rfl
    | true => exact Or.inr (teamLtB_asymm s b a hx)
  have htrans : ∀ a b c : String, teamLtB s b a = false → teamLtB s c b = false →
      teamLtB s c a = false := by
    intro a b c h1 h2
    cases hca : teamLtB s c a with
    | false => rfl
    | true =>
      cases hab : teamLtB s a b with
      | true => exact absurd (teamLtB_trans hcc c a b hca hab) (by simp [h2])
      | false =>
        have hab' := teamLtB_connex s a b hab h1
        rw [hab'] at hca
        exact absurd hca (by simp [h2])
  haveI hTot : IsTotal String (fun a b => teamLtB s b a = false) := ⟨htot⟩
  haveI hTrans : IsTrans String (fun a b => teamLtB s b a = false) :=
    ⟨fun a b c h1 h2 => htrans a b c h1 h2⟩
  have hsorted := List.sorted_insertionSort (fun a b => teamLtB s b a = false) s.teamOrder
  have hnd' : (updateRankings s).teamOrder.Nodup := (hperm.nodup_iff).mpr hnd
  have hpw := List.Pairwise.and hsorted hnd'
  refine hpw.imp ?_
  intro a b hab
  obtain ⟨hr, hne⟩ := hab
  cases hx : teamLtB s a b with
  | true => rfl
  | false => exact absurd (teamLtB_connex s a b hx hr) hne

def c3WitnessState : SystemState :=
  { initState with
    competitionStarted := true,
    problemCount := 1, problemNames := ["A"], teamOrder := ["A", "B"],
    teams := [("A", Team.new "A"),
              ("B", { name := "B", solvedCount := 1, penaltyTime := 5,
                      wrongSubmissions := [("A", 0)], firstAcceptTime := [("A", 5)],
                      isSolved := [("A", true)], totalSubmissions := [("A", 1)],
                      frozenSubmissions := [("A", 0)] })] }

theorem updateRankings_order_witness :
    (updateRankings c3WitnessState).teamOrder.Perm c3WitnessState.teamOrder ∧
    (updateRankings c3WitnessState).teamOrder.Pairwise
      (fun a b => teamLtB c3WitnessState a b = true) :=
  ⟨(updateRankings_order c3WitnessState
      (by simp only [countsConsistent]; decide) (by decide)).1,
   (updateRankings_order c3WitnessState
      (by simp only [countsConsistent]; decide) (by decide)).2.1⟩

end ICPCMS

namespace ICPCMS

/-! ### C2: ranking-change events during scroll -/

def c2Ops : List Op :=
  [Op.addTeam "R", Op.addTeam "S", Op.addTeam "T", Op.addTeam "U",
   Op.start 300 2,
   Op.submit "A" "S" "Accepted" 1,
   Op.submit "A" "T" "Wrong_Answer" 1, Op.submit "A" "T" "Accepted" 2,
   Op.submit "A" "U" "Wrong_Answer" 1, Op.submit "A" "U" "Wrong_Answer" 2,
   Op.submit "A" "U" "Accepted" 3,
   Op.freeze,
   Op.submit "A" "R" "Accepted" 4, Op.submit "B" "R" "Accepted" 5]

/-- C2 (counterexample): in this scroll, team R is revealed twice and both
reveals change the order.  The emitted events are (R, U, 2, 9) and (R, S, 2, 9):
the displaced team is taken from the order immediately PRIOR to the reveal
(after the second reveal R is first in the new order, with S behind it, yet the
event names S), and the reported solvedCount/penaltyTime are R's end-of-scroll
values (2, 9), not the at-step values - the first reveal left R at (1, 4) while
its event prints (2, 9). -/
theorem scroll_event_counterexample :
    ((runOps initState c2Ops).bind (fun s0 => scrollScoreboard s0)).map (fun r =>
      (match r.2 with
       | ScrollResult.ok _ evs fb => (evs, fb.map (fun row => row.teamName))
       | ScrollResult.notFrozen => ([], []))) =
      some ([("R", "U", 2, 9), ("R", "S", 2, 9)], ["R", "S", "T", "U"]) ∧
    ((runOps initState c2Ops).map (fun s0 =>
      (revealStep (updateRankings s0) "R" "A").map (fun r =>
        ((getTeamD r.1 "R").solvedCount, (getTeamD r.1 "R").penaltyTime, r.2)))) =
      some (some (1, 4, some ("R", "U"))) := by
  exact ⟨by decide, by decide⟩

end ICPCMS

namespace ICPCMS

/-- C2 (amended): for every scroll reveal step, at most one ranking-change
event is emitted: none when the recomputed order equals the order immediately
prior to the reveal, and exactly one when a solve was applied, the order
changed and the revealed team had a predecessor in the PRIOR order; the event
names the revealed team (whose solvedCount has just been incremented) and the
team immediately ahead of it in the prior (pre-recomputation) order.  The
solvedCount and penaltyTime attached to the emitted events are the revealed
team's values at the end of the whole scroll, read from the final state. -/
theorem scroll_event_rule :
    (∀ s tn p s' ev, revealStep s tn p = some (s', ev) →
      ((s'.teamOrder = s.teamOrder → ev = none) ∧
       (∀ t1 t2, ev = some (t1, t2) → t1 = tn ∧ s'.teamOrder ≠ s.teamOrder ∧
         predecessorIn s.teamOrder tn = some t2 ∧
         (getTeamD s' tn).solvedCount = (getTeamD s tn).solvedCount + 1) ∧
       (s'.teamOrder ≠ s.teamOrder → ∀ t2, predecessorIn s.teamOrder tn = some t2 →
         ev = some (tn, t2)))) ∧
    (∀ s s1 b1 evs b2, scrollScoreboard s = some (s1, ScrollResult.ok b1 evs b2) →
      ∀ e ∈ evs, e.2.2.1 = (getTeamD s1 e.1).solvedCount ∧
        e.2.2.2 = (getTeamD s1 e.1).penaltyTime) := by
  constructor
  · intro s tn p s' ev h
    simp only [revealStep] at h
    split at h
    · -- frozenSubmissions > 0
      split at h
      · -- an accepted frozen submission was found
        split at h
        · -- getProblemPenalty failed: contradiction
          exact absurd h (by simp)
        · simp only [Option.some_inj, Prod.mk.injEq] at h
          obtain ⟨hs, hev⟩ := h
          subst hs
          subst hev
          refine ⟨?_, ?_, ?_⟩
          · intro heq
            rw [if_neg (not_not_intro heq)]
          · intro t1 t2 hx
            split at hx
            next hC =>
              split at hx
              next r hpred =>
                simp only [Option.some_inj, Prod.mk.injEq] at hx
                obtain ⟨h1, h2⟩ := hx
                subst h1
                subst h2
                exact ⟨rfl, hC, hpred, by simp [getTeamD, lookupA_setA_self]⟩
              next hpred => exact absurd hx (by simp)
            next hC => exact absurd hx (by simp)
          · intro hne t2 hpred
            rw [if_pos hne, hpred]
      · -- no accepted frozen submission with positive time
        simp only [Option.some_inj, Prod.mk.injEq] at h
        obtain ⟨hs, hev⟩ := h
        subst hs
        subst hev
        refine ⟨fun _ => rfl, ?_, ?_⟩
        · intro t1 t2 hx
          exact absurd hx (by simp)
        · intro hne
          exact absurd rfl hne
    · -- no pending frozen submissions
      simp only [Option.some_inj, Prod.mk.injEq] at h
      obtain ⟨hs, hev⟩ := h
      subst hs
      subst hev
      refine ⟨fun _ => rfl, ?_, ?_⟩
      · intro t1 t2 hx
        exact absurd hx (by simp)
      · intro hne
        exact absurd rfl hne
  · intro s s1 b1 evs b2 h
    simp only [scrollScoreboard] at h
    split at h
    · simp at h
    · split at h
      · exact absurd h (by simp)
      · simp only [Option.some_inj, Prod.mk.injEq, ScrollResult.ok.injEq] at h
        obtain ⟨hs1, _, hevs, _⟩ := h
        intro e he
        rw [← hevs] at he
        simp only [List.mem_map] at he
        obtain ⟨c, _, hc⟩ := he
        subst hc
        subst hs1
        exact ⟨rfl, rfl⟩

end ICPCMS

namespace ICPCMS

def c2wState : SystemState :=
  updateRankings ((runOps initState
    [Op.addTeam "T", Op.addTeam "U", Op.start 300 1,
     Op.submit "A" "U" "Wrong_Answer" 1, Op.submit "A" "U" "Accepted" 2,
     Op.freeze, Op.submit "A" "T" "Accepted" 3]).getD initState)

def c2wRes : SystemState × Option (String × String) :=
  (revealStep c2wState "T" "A").getD (initState, none)

theorem scroll_event_rule_witness :
    c2wRes.2 = some ("T", "U") ∧ (getTeamD c2wRes.1 "T").solvedCount = 1 := by
  have h : revealStep c2wState "T" "A" = some (c2wRes.1, c2wRes.2) := by decide
  have h3 := (scroll_event_rule.1 c2wState "T" "A" c2wRes.1 c2wRes.2 h).2.2
    (by decide) "U" (by decide)
  exact ⟨h3, by decide⟩

end ICPCMS

namespace ICPCMS

/-! ### C7: monotonicity of solvedCount, penaltyTime and solved flags -/

/-- Per-team monotonicity between two states. -/
def monoLe (s s' : SystemState) : Prop :=
  ∀ n, (getTeamD s n).solvedCount ≤ (getTeamD s' n).solvedCount ∧
    (getTeamD s n).penaltyTime ≤ (getTeamD s' n).penaltyTime ∧
    (∀ p, getDA (getTeamD s n).isSolved p false = true →
      getDA (getTeamD s' n).isSolved p false = true)

theorem monoLe_refl (s : SystemState) : monoLe s s :=
  fun _ => ⟨le_refl _, le_refl _, fun _ h => h⟩

theorem monoLe_trans {a b c : SystemState} (h1 : monoLe a b) (h2 : monoLe b c) :
    monoLe a c := by
  intro n
  exact ⟨le_trans (h1 n).1 (h2 n).1, le_trans (h1 n).2.1 (h2 n).2.1,
    fun p hp => (h2 n).2.2 p ((h1 n).2.2 p hp)⟩

theorem monoLe_of_teams_eq {s s' : SystemState} (h : s'.teams = s.teams) :
    monoLe s s' := by
  intro n
  unfold getTeamD
  rw [h]
  exact ⟨le_refl _, le_refl _, fun _ h => h⟩

theorem monoLe_setA_team {s : SystemState} {tn : String} {t' : Team}
    {s' : SystemState} (hteams : s'.teams = setA s.teams tn t')
    (hcount : (getTeamD s tn).solvedCount ≤ t'.solvedCount)
    (hpen : (getTeamD s tn).penaltyTime ≤ t'.penaltyTime)
    (hflag : ∀ p, getDA (getTeamD s tn).isSolved p false = true →
      getDA t'.isSolved p false = true) :
    monoLe s s' := by
  intro n
  by_cases hn : n = tn
  · subst hn
    have : getTeamD s' n = t' := by
      unfold getTeamD
      rw [hteams, lookupA_setA_self]
      rfl
    rw [this]
    exact ⟨hcount, hpen, hflag⟩
  · have : getTeamD s' n = getTeamD s n := by
      unfold getTeamD
      rw [hteams, lookupA_setA_ne _ _ _ _ hn]
    rw [this]
    exact ⟨le_refl _, le_refl _, fun _ h => h⟩

theorem firstFrozenACAux_pos (tn p : String) (subs : List Submission)
    (acc : Option Int) (hacc : ∀ t, acc = some t → 0 < t) :
    ∀ t, firstFrozenACAux tn p subs acc = some t → 0 < t := by
  induction subs generalizing acc with
  | nil => exact hacc
  | cons sub rest ih =>
    intro t h
    simp only [firstFrozenACAux] at h
    by_cases hc : sub.teamName = tn ∧ sub.problemName = p ∧
        sub.status = Status.accepted ∧ sub.time > 0
    · rw [if_pos hc] at h
      cases haccv : acc with
      | none =>
        rw [haccv] at h
        exact ih (some sub.time) (fun t ht => by
          rw [Option.some_inj] at ht
          rw [← ht]
          exact hc.2.2.2) t h
      | some t0 =>
        simp only [haccv] at h
        by_cases hlt : sub.time < t0
        · rw [if_pos hlt] at h
          exact ih (some sub.time) (fun t ht => by
            rw [Option.some_inj] at ht
            rw [← ht]
            exact hc.2.2.2) t h
        · rw [if_neg hlt] at h
          exact ih (some t0) (fun t ht => by
            rw [Option.some_inj] at ht
            rw [← ht]
            exact hacc t0 haccv) t h
    · rw [if_neg hc] at h
      exact ih acc hacc t h

theorem firstFrozenAC_pos (subs : List Submission) (tn p : String) (t : Int)
    (h : firstFrozenAC subs tn p = some t) : 0 < t :=
  firstFrozenACAux_pos tn p subs none (fun _ ht => by simp at ht) t h

end ICPCMS

namespace ICPCMS

theorem submit_monoLe (p tn st : String) (tm : Int) (s s' : SystemState)
    (htm : 0 ≤ tm) (h : submitProblem p tn st tm s = some s') : monoLe s s' := by
  simp only [submitProblem] at h
  split at h
  · -- frozen and unsolved: counters only
    simp only [Option.some_inj] at h
    subst h
    refine monoLe_setA_team rfl (le_refl _) (le_refl _) ?_
    intro q hq
    simpa [getDA_ensureA] using hq
  · split at h
    · split at h
      · -- unfrozen accepted on an unsolved problem
        split at h
        · exact absurd h (by simp)
        next pen hpen =>
          simp only [Option.some_inj] at h
          subst h
          have hpen0 : 0 ≤ pen := by
            simp only [Team.getProblemPenalty, lookupA_setA_self] at hpen
            cases hw : lookupA (getTeamD s tn).wrongSubmissions p with
            | none => simp [hw] at hpen
            | some w =>
              simp only [hw, lookupA_setA_self, Option.some_inj] at hpen
              omega
          refine monoLe_setA_team rfl ?_ ?_ ?_
          · simp
          · simp only []
            omega
          · intro q hq
            by_cases hqp : q = p
            · subst hqp
              simp [getDA_setA_self]
            · simp only [getDA_setA_ne _ _ _ _ _ hqp]
              simpa [getDA_ensureA] using hq
      · -- unfrozen non-accepted on an unsolved problem
        simp only [Option.some_inj] at h
        subst h
        refine monoLe_setA_team rfl (le_refl _) (le_refl _) ?_
        intro q hq
        simpa [getDA_ensureA] using hq
    · -- already solved
      simp only [Option.some_inj] at h
      subst h
      refine monoLe_setA_team rfl (le_refl _) (le_refl _) ?_
      intro q hq
      simpa [getDA_ensureA] using hq

theorem revealStep_monoLe (s : SystemState) (tn p : String) (s' : SystemState)
    (ev : Option (String × String)) (h : revealStep s tn p = some (s', ev)) :
    monoLe s s' := by
  simp only [revealStep] at h
  split at h
  · split at h
    next ft hft =>
      split at h
      · exact absurd h (by simp)
      next pen hpen =>
        simp only [Option.some_inj, Prod.mk.injEq] at h
        obtain ⟨hs, _⟩ := h
        subst hs
        have hft0 : 0 < ft := firstFrozenAC_pos _ _ _ _ hft
        have hpen0 : 0 ≤ pen := by
          simp only [Team.getProblemPenalty, lookupA_setA_self] at hpen
          cases hw : lookupA (getTeamD s tn).wrongSubmissions p with
          | none => simp [hw] at hpen
          | some w =>
            simp only [hw, lookupA_setA_self, Option.some_inj] at hpen
            omega
        intro n
        by_cases hn : n = tn
        · subst hn
          refine ⟨?_, ?_, ?_⟩
          · simp [getTeamD, updateRankings, lookupA_setA_self]
          · simp only [getTeamD, updateRankings, lookupA_setA_self, Option.getD_some]
            omega
          · intro q hq
            simp only [getTeamD, updateRankings, lookupA_setA_self, Option.getD_some]
            by_cases hqp : q = p
            · subst hqp
              simp [getDA_setA_self]
            · simp only [getDA_setA_ne _ _ _ _ _ hqp]
              exact hq
        · refine ⟨?_, ?_, ?_⟩
          · simp [getTeamD, updateRankings, lookupA_setA_ne _ _ _ _ hn]
          · simp [getTeamD, updateRankings, lookupA_setA_ne _ _ _ _ hn]
          · intro q hq
            simpa [getTeamD, updateRankings, lookupA_setA_ne _ _ _ _ hn] using hq
    next hft =>
      simp only [Option.some_inj, Prod.mk.injEq] at h
      obtain ⟨hs, _⟩ := h
      subst hs
      exact monoLe_setA_team rfl (le_refl _) (le_refl _) (fun _ hq => hq)
  · simp only [Option.some_inj, Prod.mk.injEq] at h
    obtain ⟨hs, _⟩ := h
    subst hs
    exact monoLe_setA_team rfl (le_refl _) (le_refl _) (fun _ hq => hq)

end ICPCMS

namespace ICPCMS

theorem scrollLoop_monoLe (fuel : Nat) :
    ∀ (s : SystemState) (acc : List (String × String)) (s2 : SystemState)
      (l : List (String × String)), scrollLoop fuel s acc = some (s2, l) →
      monoLe s s2 := by
  induction fuel with
  | zero => intro s acc s2 l h; simp [scrollLoop] at h
  | succ n ih =>
    intro s acc s2 l h
    simp only [scrollLoop] at h
    cases hf : findReveal s with
    | none =>
      simp only [hf, Option.some_inj, Prod.mk.injEq] at h
      obtain ⟨h1, _⟩ := h
      subst h1
      exact monoLe_refl _
    | some pr =>
      obtain ⟨tn, p⟩ := pr
      simp only [hf] at h
      cases hr : revealStep s tn p with
      | none => simp [hr] at h
      | some r =>
        obtain ⟨s1, ev⟩ := r
        simp only [hr] at h
        exact monoLe_trans (revealStep_monoLe s tn p s1 ev hr) (ih s1 _ s2 l h)

theorem scroll_monoLe (s s' : SystemState) (r : ScrollResult)
    (h : scrollScoreboard s = some (s', r)) : monoLe s s' := by
  simp only [scrollScoreboard] at h
  split at h
  · simp only [Option.some_inj, Prod.mk.injEq] at h
    obtain ⟨h1, _⟩ := h
    subst h1
    exact monoLe_refl _
  · split at h
    · exact absurd h (by simp)
    next s2 changes hloop =>
      simp only [Option.some_inj, Prod.mk.injEq] at h
      obtain ⟨h1, _⟩ := h
      have m1 : monoLe s (updateRankings s) := monoLe_of_teams_eq rfl
      have m2 : monoLe (updateRankings s) s2 := scrollLoop_monoLe _ _ _ _ _ hloop
      have m3 : monoLe s2 s' := by
        rw [← h1]
        exact monoLe_of_teams_eq rfl
      exact monoLe_trans (monoLe_trans m1 m2) m3

/-- Operations covered by the monotonicity claim: submissions, freeze, flush,
scroll and queries (team registration and contest start excluded). -/
def opC7 : Op → Bool
  | Op.addTeam _ => false
  | Op.start _ _ => false
  | _ => true

/-- Submission timestamps are non-negative. -/
def opTimeOk : Op → Bool
  | Op.submit _ _ _ t => decide (0 ≤ t)
  | _ => true

theorem applyOp_monoLe (s s' : SystemState) (op : Op) (hop : opC7 op = true)
    (htm : opTimeOk op = true) (h : applyOp s op = some s') : monoLe s s' := by
  cases op with
  | addTeam n => simp [opC7] at hop
  | start d c => simp [opC7] at hop
  | submit p t st tm =>
    have h0 : 0 ≤ tm := by simpa [opTimeOk] using htm
    exact submit_monoLe p t st tm s s' h0 (by simpa [applyOp] using h)
  | flush =>
    simp only [applyOp, Option.some_inj] at h
    rw [← h]
    exact monoLe_of_teams_eq rfl
  | freeze =>
    simp only [applyOp, Option.some_inj] at h
    rw [← h]
    refine monoLe_of_teams_eq ?_
    unfold freezeScoreboard
    split <;> rfl
  | scroll =>
    simp only [applyOp, Option.map_eq_some'] at h
    obtain ⟨pr, hp, h2⟩ := h
    obtain ⟨s1, r⟩ := pr
    rw [← h2]
    exact scroll_monoLe s s1 r hp
  | queryRank t =>
    simp only [applyOp, Option.some_inj] at h
    rw [← h]
    exact monoLe_refl s
  | querySub a b c =>
    simp only [applyOp, Option.some_inj] at h
    rw [← h]
    exact monoLe_refl s

theorem runOps_monoLe : ∀ (ops : List Op) (s s' : SystemState),
    runOps s ops = some s' → (∀ op ∈ ops, opC7 op = true) →
    (∀ op ∈ ops, opTimeOk op = true) → monoLe s s' := by
  intro ops
  induction ops with
  | nil =>
    intro s s' h _ _
    simp only [runOps, Option.some_inj] at h
    subst h
    exact monoLe_refl _
  | cons op rest ih =>
    intro s s' h hops htime
    simp only [runOps] at h
    cases hap : applyOp s op with
    | none => rw [hap] at h; simp at h
    | some s1 =>
      rw [hap] at h
      exact monoLe_trans
        (applyOp_monoLe s s1 op (hops op (List.mem_cons_self _ _))
          (htime op (List.mem_cons_self _ _)) hap)
        (ih s1 s' h (fun o hm => hops o (List.mem_cons_of_mem _ hm))
          (fun o hm => htime o (List.mem_cons_of_mem _ hm)))

/-- C7: over any sequence of submissions, freeze, flush, scroll and query
operations whose submission timestamps are non-negative, every team's
solvedCount and penaltyTime never decrease, and a solved flag never reverts
from true to false. -/
theorem ops_monotone (ops : List Op) (s s' : SystemState)
    (hrun : runOps s ops = some s')
    (hops : ∀ op ∈ ops, opC7 op = true)
    (htime : ∀ op ∈ ops, opTimeOk op = true) :
    ∀ n, (getTeamD s n).solvedCount ≤ (getTeamD s' n).solvedCount ∧
      (getTeamD s n).penaltyTime ≤ (getTeamD s' n).penaltyTime ∧
      (∀ p, getDA (getTeamD s n).isSolved p false = true →
        getDA (getTeamD s' n).isSolved p false = true) :=
  runOps_monoLe ops s s' hrun hops htime

def c7wState : SystemState :=
  (runOps initState [Op.addTeam "T", Op.start 300 2,
    Op.submit "A" "T" "Accepted" 1]).getD initState

def c7wOps : List Op :=
  [Op.freeze, Op.submit "B" "T" "Accepted" 2, Op.flush, Op.scroll,
   Op.queryRank "T"]

def c7wFinal : SystemState :=
  (runOps c7wState c7wOps).getD initState

theorem ops_monotone_witness :
    runOps c7wState c7wOps = some c7wFinal ∧
    (getTeamD c7wState "T").solvedCount ≤ (getTeamD c7wFinal "T").solvedCount ∧
    (getTeamD c7wState "T").penaltyTime ≤ (getTeamD c7wFinal "T").penaltyTime ∧
    getDA (getTeamD c7wFinal "T").isSolved "A" false = true := by
  have hrun : runOps c7wState c7wOps = some c7wFinal := by decide
  have h := ops_monotone c7wOps c7wState c7wFinal hrun (by decide) (by decide) "T"
  exact ⟨hrun, h.1, h.2.1, h.2.2 "A" (by decide)⟩

end ICPCMS

namespace ICPCMS

/-! ### C6: penaltyTime equals the sum of per-problem penalties -/

/-- Sum of `20 * wrongCount + firstAcceptTime` over the solved entries of an
`isSolved` map (the per-problem contribution of `getProblemPenalty`). -/
def sumTerms (iso : AMap Bool) (wrong : AMap Nat) (fat : AMap Int) : Int :=
  ((iso.filter (fun e => e.2)).map
    (fun e => 20 * ((getDA wrong e.1 0 : Nat) : Int) + getDA fat e.1 0)).sum

def Team.penaltySum (t : Team) : Int :=
  sumTerms t.isSolved t.wrongSubmissions t.firstAcceptTime

def nodupKeys {V : Type} (m : AMap V) : Prop := (m.map Prod.fst).Nodup

theorem mem_setA {V : Type} {m : AMap V} {k : String} {v : V} {e : String × V}
    (h : e ∈ setA m k v) : e = (k, v) ∨ e ∈ m := by
  induction m with
  | nil => simp [setA] at h; exact Or.inl h
  | cons f rest ih =>
    by_cases hf : f.1 = k
    · simp only [setA, hf, if_true] at h
      rcases List.mem_cons.mp h with h | h
      · exact Or.inl h
      · exact Or.inr (List.mem_cons_of_mem _ h)
    · simp only [setA, hf, if_false] at h
      rcases List.mem_cons.mp h with h | h
      · exact Or.inr (h ▸ List.mem_cons_self _ _)
      · rcases ih h with h | h
        · exact Or.inl h
        · exact Or.inr (List.mem_cons_of_mem _ h)

theorem lookupA_none_keys {V : Type} {m : AMap V} {k : String}
    (h : lookupA m k = none) : ∀ e ∈ m, (e : String × V).1 ≠ k := by
  induction m with
  | nil => intro e he; simp at he
  | cons f rest ih =>
    intro e he
    by_cases hf : f.1 = k
    · simp [lookupA, hf] at h
    · simp only [lookupA, hf, if_false] at h
      rcases List.mem_cons.mp he with he | he
      · rw [he]; exact hf
      · exact ih h e he

theorem setA_nodupKeys {V : Type} {m : AMap V} (k : String) (v : V)
    (h : nodupKeys m) : nodupKeys (setA m k v) := by
  induction m with
  | nil => simp [setA, nodupKeys]
  | cons f rest ih =>
    by_cases hf : f.1 = k
    · simp only [setA, hf, if_true]
      simp only [nodupKeys, List.map_cons, List.nodup_cons] at h ⊢
      rw [← hf]
      exact h
    · simp only [setA, hf, if_false]
      simp only [nodupKeys, List.map_cons, List.nodup_cons] at h ⊢
      obtain ⟨h1, h2⟩ := h
      refine ⟨?_, ih h2⟩
      intro hmem
      simp only [List.mem_map] at hmem
      obtain ⟨e, he, hke⟩ := hmem
      rcases mem_setA he with he' | he'
      · rw [he'] at hke
        exact hf hke.symm
      · exact h1 (List.mem_map.mpr ⟨e, he', hke⟩)

theorem ensureA_nodupKeys {V : Type} {m : AMap V} (k : String) (d : V)
    (h : nodupKeys m) : nodupKeys (ensureA m k d) := by
  unfold ensureA
  cases lookupA m k with
  | some v => exact h
  | none => exact setA_nodupKeys k d h

theorem lookupA_of_mem_nodup {V : Type} {m : AMap V} {k : String} {v : V}
    (hnd : nodupKeys m) (hmem : (k, v) ∈ m) : lookupA m k = some v := by
  induction m with
  | nil => simp at hmem
  | cons f rest ih =>
    simp only [nodupKeys, List.map_cons, List.nodup_cons] at hnd
    obtain ⟨h1, h2⟩ := hnd
    rcases List.mem_cons.mp hmem with hm | hm
    · rw [← hm]
      simp [lookupA]
    · have hf : f.1 ≠ k := by
        intro hk
        exact h1 (List.mem_map.mpr ⟨(k, v), hm, by rw [hk]⟩)
      simp only [lookupA, hf, if_false]
      exact ih h2 hm

theorem sumTerms_congr (iso : AMap Bool) (w1 w2 : AMap Nat) (f1 f2 : AMap Int)
    (hw : ∀ e ∈ iso, (e : String × Bool).2 = true → getDA w1 e.1 0 = getDA w2 e.1 0)
    (hf : ∀ e ∈ iso, (e : String × Bool).2 = true → getDA f1 e.1 0 = getDA f2 e.1 0) :
    sumTerms iso w1 f1 = sumTerms iso w2 f2 := by
  induction iso with
  | nil => rfl
  | cons e rest ih =>
    by_cases he : e.2 = true
    · simp only [sumTerms, List.filter_cons, he, if_true, List.map_cons, List.sum_cons]
      rw [hw e (List.mem_cons_self _ _) he, hf e (List.mem_cons_self _ _) he]
      have := ih (fun x hx h2 => hw x (List.mem_cons_of_mem _ hx) h2)
        (fun x hx h2 => hf x (List.mem_cons_of_mem _ hx) h2)
      simp only [sumTerms] at this
      rw [this]
    · simp only [sumTerms, List.filter_cons]
      rw [if_neg (by simpa using he)]
      exact ih (fun x hx h2 => hw x (List.mem_cons_of_mem _ hx) h2)
        (fun x hx h2 => hf x (List.mem_cons_of_mem _ hx) h2)

theorem sumTerms_setA_false_absent (iso : AMap Bool) (wrong : AMap Nat)
    (fat : AMap Int) (p : String) (h : lookupA iso p = none) :
    sumTerms (setA iso p false) wrong fat = sumTerms iso wrong fat := by
  induction iso with
  | nil => simp [sumTerms, setA]
  | cons e rest ih =>
    by_cases he : e.1 = p
    · simp [lookupA, he] at h
    · simp only [lookupA, he, if_false] at h
      simp only [setA, he, if_false]
      by_cases hv : e.2 = true
      · simp only [sumTerms, List.filter_cons, hv, if_true, List.map_cons, List.sum_cons]
        have := ih h
        simp only [sumTerms] at this
        rw [this]
      · simp only [sumTerms, List.filter_cons]
        rw [if_neg (by simpa using hv), if_neg (by simpa using hv)]
        exact ih h

theorem sumTerms_ensureA_false (iso : AMap Bool) (wrong : AMap Nat)
    (fat : AMap Int) (p : String) :
    sumTerms (ensureA iso p false) wrong fat = sumTerms iso wrong fat := by
  unfold ensureA
  cases h : lookupA iso p with
  | some v => rfl
  | none => exact sumTerms_setA_false_absent iso wrong fat p h

theorem sumTerms_solve (iso : AMap Bool) (wrong : AMap Nat) (fat : AMap Int)
    (p : String) (tm : Int) (hnd : nodupKeys iso)
    (hlook : lookupA iso p ≠ some true) :
    sumTerms (setA iso p true) wrong (setA fat p tm)
      = sumTerms iso wrong fat + (20 * ((getDA wrong p 0 : Nat) : Int) + tm) := by
  induction iso with
  | nil =>
    simp [sumTerms, setA, getDA_setA_self]
  | cons e rest ih =>
    simp only [nodupKeys, List.map_cons, List.nodup_cons] at hnd
    obtain ⟨hnd1, hnd2⟩ := hnd
    by_cases he : e.1 = p
    · have hval : e.2 = false := by
        simp only [lookupA, he, if_true] at hlook
        cases hv : e.2 with
        | false => rfl
        | true => exact absurd (by rw [hv]) hlook
      have hkeys : ∀ x ∈ rest, (x : String × Bool).1 ≠ p := by
        intro x hx hk
        exact hnd1 (List.mem_map.mpr ⟨x, hx, by rw [hk, he]⟩)
      simp only [setA, he, if_true]
      simp only [sumTerms, List.filter_cons, hval]
      simp only [if_true, Bool.false_eq_true, if_false, List.map_cons, List.sum_cons,
        getDA_setA_self]
      have hcongr : sumTerms rest wrong (setA fat p tm) = sumTerms rest wrong fat := by
        refine sumTerms_congr rest wrong wrong (setA fat p tm) fat
          (fun x hx _ => rfl) (fun x hx _ => ?_)
        exact getDA_setA_ne _ _ _ _ _ (hkeys x hx)
      simp only [sumTerms] at hcongr
      rw [hcongr]
      ring
    · simp only [setA, he, if_false]
      have hlook' : lookupA rest p ≠ some true := by
        simp only [lookupA, he, if_false] at hlook
        exact hlook
      by_cases hv : e.2 = true
      · simp only [sumTerms, List.filter_cons, hv, if_true, List.map_cons, List.sum_cons]
        rw [getDA_setA_ne _ _ _ _ _ he]
        have := ih hnd2 hlook'
        simp only [sumTerms] at this
        rw [this]
        ring
      · simp only [sumTerms, List.filter_cons]
        rw [if_neg (by simpa using hv), if_neg (by simpa using hv)]
        exact ih hnd2 hlook'

theorem sumTerms_wrongSet (iso : AMap Bool) (wrong : AMap Nat) (fat : AMap Int)
    (p : String) (n : Nat) (hnd : nodupKeys iso)
    (hlook : lookupA iso p ≠ some true) :
    sumTerms iso (setA wrong p n) fat = sumTerms iso wrong fat := by
  refine sumTerms_congr iso (setA wrong p n) wrong fat fat (fun e he h2 => ?_)
    (fun _ _ _ => rfl)
  have hne : e.1 ≠ p := by
    intro hk
    have : (p, true) ∈ iso := by
      have : e = (p, true) := by
        obtain ⟨a, b⟩ := e
        simp only at hk h2
        rw [hk, h2]
      rw [← this]
      exact he
    exact hlook (lookupA_of_mem_nodup hnd this)
  exact getDA_setA_ne _ _ _ _ _ hne

end ICPCMS

namespace ICPCMS

theorem sumTerms_allFalse (iso : AMap Bool) (wrong : AMap Nat) (fat : AMap Int)
    (h : ∀ e ∈ iso, (e : String × Bool).2 = false) :
    sumTerms iso wrong fat = 0 := by
  induction iso with
  | nil => rfl
  | cons e rest ih =>
    have he := h e (List.mem_cons_self _ _)
    simp only [sumTerms, List.filter_cons, he, Bool.false_eq_true, if_false]
    exact ih (fun x hx => h x (List.mem_cons_of_mem _ hx))

theorem initTeamProblems_fields (pnames : List String) :
    ∀ t : Team, (initTeamProblems pnames t).penaltyTime = t.penaltyTime ∧
      (initTeamProblems pnames t).solvedCount = t.solvedCount ∧
      (nodupKeys t.isSolved → nodupKeys (initTeamProblems pnames t).isSolved) ∧
      ((∀ e ∈ t.isSolved, (e : String × Bool).2 = false) →
        ∀ e ∈ (initTeamProblems pnames t).isSolved, (e : String × Bool).2 = false) := by
  induction pnames with
  | nil => intro t; exact ⟨rfl, rfl, fun h => h, fun h => h⟩
  | cons p rest ih =>
    intro t
    simp only [initTeamProblems, List.foldl_cons]
    have := ih { t with
      wrongSubmissions := setA t.wrongSubmissions p 0,
      firstAcceptTime := setA t.firstAcceptTime p 0,
      isSolved := setA t.isSolved p false,
      totalSubmissions := setA t.totalSubmissions p 0,
      frozenSubmissions := setA t.frozenSubmissions p 0 }
    simp only [initTeamProblems] at this
    refine ⟨this.1, this.2.1, ?_, ?_⟩
    · intro hnd
      exact this.2.2.1 (setA_nodupKeys p false hnd)
    · intro hall
      refine this.2.2.2 ?_
      intro e he
      rcases mem_setA he with he' | he'
      · rw [he']
      · exact hall e he'

/-- The inductive invariant behind C6. -/
structure InvC6 (s : SystemState) : Prop where
  fresh : s.competitionStarted = false →
    (∀ e ∈ s.teams, (e : String × Team).2 = Team.new e.1) ∧ s.frozenProblems = []
  unfrozenEmpty : s.isFrozen = false → s.frozenProblems = []
  nodup : ∀ e ∈ s.teams, nodupKeys (e : String × Team).2.isSolved
  frozenOK : ∀ tn p, p ∈ getDA s.frozenProblems tn [] →
    getDA (getTeamD s tn).isSolved p false = false
  penOK : ∀ e ∈ s.teams, (e : String × Team).2.penaltyTime = e.2.penaltySum

/-- C6 (counterexample): a submission applied before the competition start can
solve a problem and charge its penalty; START then resets the per-problem maps
but neither penaltyTime nor solvedCount, so the reachable post-START state has
penaltyTime 22 while the sum of contributions over solved problems is 0 (no
problem is marked solved any more). -/
theorem penalty_invariant_counterexample :
    (runOps initState [Op.addTeam "X", Op.submit "A" "X" "Wrong_Answer" 1,
      Op.submit "A" "X" "Accepted" 2, Op.start 300 1]).map (fun s =>
      ((getTeamD s "X").penaltyTime, (getTeamD s "X").penaltySum,
       (getTeamD s "X").solvedCount, getDA (getTeamD s "X").isSolved "A" false)) =
    some (22, 0, 1, false) := by
  decide

end ICPCMS

namespace ICPCMS

theorem mem_insertSet {l : List String} {p q : String} (h : q ∈ insertSet l p) :
    q ∈ l ∨ q = p := by
  unfold insertSet at h
  split at h
  · exact Or.inl h
  · rcases List.mem_append.mp h with h | h
    · exact Or.inl h
    · exact Or.inr (by simpa using h)

theorem getDA_false_ne_some_true {m : AMap Bool} {p : String}
    (h : getDA m p false = false) : lookupA m p ≠ some true := by
  intro hx
  rw [getDA, hx] at h
  simp at h

theorem nodupKeys_getTeamD (s : SystemState) (tn : String) (hinv : InvC6 s) :
    nodupKeys (getTeamD s tn).isSolved := by
  unfold getTeamD
  cases hx : lookupA s.teams tn with
  | none => simp [Team.new, nodupKeys]
  | some t => exact hinv.nodup (tn, t) (lookupA_mem hx)

theorem penOK_getTeamD (s : SystemState) (tn : String) (hinv : InvC6 s) :
    (getTeamD s tn).penaltyTime = (getTeamD s tn).penaltySum := by
  unfold getTeamD
  cases hx : lookupA s.teams tn with
  | none => rfl
  | some t => exact hinv.penOK (tn, t) (lookupA_mem hx)

theorem addTeam_preserves_inv (n : String) (s : SystemState) (hinv : InvC6 s) :
    InvC6 (addTeam n s).1 := by
  unfold addTeam
  split
  · exact hinv
  · split
    · exact hinv
    · constructor
      · intro hns
        obtain ⟨hf, hfp⟩ := hinv.fresh hns
        refine ⟨?_, hfp⟩
        intro e he
        rcases mem_setA he with he' | he'
        · rw [he']
        · exact hf e he'
      · intro hz
        exact hinv.unfrozenEmpty hz
      · intro e he
        rcases mem_setA he with he' | he'
        · rw [he']
          simp [Team.new, nodupKeys]
        · exact hinv.nodup e he'
      · intro tn p hp
        by_cases htn : tn = n
        · subst htn
          simp [getTeamD, lookupA_setA_self, Team.new, getDA, lookupA]
        · have := hinv.frozenOK tn p hp
          simpa [getTeamD, lookupA_setA_ne _ _ _ _ htn] using this
      · intro e he
        rcases mem_setA he with he' | he'
        · rw [he']
          rfl
        · exact hinv.penOK e he'

theorem start_preserves_inv (d c : Int) (s : SystemState) (hinv : InvC6 s) :
    InvC6 (startCompetition d c s).1 := by
  unfold startCompetition
  split
  · exact hinv
  next hns =>
    have hsf : s.competitionStarted = false := by
      cases h : s.competitionStarted
      · rfl
      · exact absurd h hns
    obtain ⟨hfresh, hfp⟩ := hinv.fresh hsf
    constructor
    · intro hc
      simp at hc
    · intro hz
      exact hinv.unfrozenEmpty hz
    · intro e he
      simp only [List.mem_map] at he
      obtain ⟨x, hx, hxe⟩ := he
      rw [← hxe]
      exact (initTeamProblems_fields _ x.2).2.2.1 (hinv.nodup x hx)
    · intro tn p hp
      have hp' : p ∈ getDA s.frozenProblems tn [] := hp
      rw [hfp] at hp'
      simp [getDA, lookupA] at hp'
    · intro e he
      simp only [List.mem_map] at he
      obtain ⟨x, hx, hxe⟩ := he
      rw [← hxe]
      have hxf := hfresh x hx
      rw [hxf]
      have hf := initTeamProblems_fields ((List.range c.toNat).map problemNameOfIdx)
        (Team.new x.1)
      have hall := hf.2.2.2 (fun e he => by simp [Team.new, lookupA] at he)
      simp only []
      unfold Team.penaltySum
      rw [hf.1, sumTerms_allFalse _ _ _ hall]
      rfl

theorem inv_updateRankings (s : SystemState) (hinv : InvC6 s) :
    InvC6 (updateRankings s) :=
  ⟨hinv.fresh, hinv.unfrozenEmpty, hinv.nodup, hinv.frozenOK, hinv.penOK⟩

theorem freeze_preserves_inv (s : SystemState) (hinv : InvC6 s) :
    InvC6 (freezeScoreboard s).1 := by
  unfold freezeScoreboard
  split
  · exact hinv
  · constructor
    · intro hns
      exact hinv.fresh hns
    · intro hz
      simp at hz
    · exact hinv.nodup
    · exact hinv.frozenOK
    · exact hinv.penOK

end ICPCMS

namespace ICPCMS

theorem submit_preserves_inv (p tn st : String) (tm : Int) (s s' : SystemState)
    (hst : s.competitionStarted = true) (hinv : InvC6 s)
    (h : submitProblem p tn st tm s = some s') : InvC6 s' := by
  have hnodupTn := nodupKeys_getTeamD s tn hinv
  have hpenTn := penOK_getTeamD s tn hinv
  simp only [submitProblem] at h
  split at h
  next hcond =>
    simp only [Option.some_inj] at h
    subst h
    have hfz : s.isFrozen = true := by
      cases hx : s.isFrozen
      · rw [hx] at hcond; simp at hcond
      · rfl
    have hsolved : getDA (ensureA (getTeamD s tn).isSolved p false) p false = false := by
      cases hx : getDA (ensureA (getTeamD s tn).isSolved p false) p false
      · rfl
      · rw [hx] at hcond; simp at hcond
    constructor
    · intro hc
      simp [hst] at hc
    · intro hz
      simp [hfz] at hz
    · intro e he
      rcases mem_setA he with he' | he'
      · rw [he']
        exact ensureA_nodupKeys p false hnodupTn
      · exact hinv.nodup e he'
    · intro tn' q hq
      by_cases htn : tn' = tn
      · rw [htn] at hq ⊢
        simp only [getTeamD, lookupA_setA_self, Option.getD_some, getDA_ensureA]
        by_cases hacc : stringToStatus st = Status.accepted
        · have hq' : q ∈ insertSet (getDA s.frozenProblems tn []) p := by
            simpa [hacc, getDA_setA_self] using hq
          rcases mem_insertSet hq' with hq2 | hq2
          · have := hinv.frozenOK tn q hq2
            simpa [getTeamD] using this
          · rw [hq2]
            rw [getDA_ensureA] at hsolved
            simpa [getTeamD] using hsolved
        · have hq' : q ∈ getDA s.frozenProblems tn [] := by
            simpa [hacc] using hq
          have := hinv.frozenOK tn q hq'
          simpa [getTeamD] using this
      · have hq' : q ∈ getDA s.frozenProblems tn' [] := by
          by_cases hacc : stringToStatus st = Status.accepted
          · simpa [hacc, getDA_setA_ne _ _ _ _ _ htn] using hq
          · simpa [hacc] using hq
        have := hinv.frozenOK tn' q hq'
        simpa [getTeamD, lookupA_setA_ne _ _ _ _ htn] using this
    · intro e he
      rcases mem_setA he with he' | he'
      · rw [he']
        simp only [Team.penaltySum]
        rw [sumTerms_ensureA_false]
        simp only [Team.penaltySum] at hpenTn
        exact hpenTn
      · exact hinv.penOK e he'
  next hcond =>
    split at h
    next hns =>
      have hsolved : getDA (ensureA (getTeamD s tn).isSolved p false) p false = false := by
        cases hx : getDA (ensureA (getTeamD s tn).isSolved p false) p false
        · rfl
        · rw [hx] at hns; simp at hns
      have hfz : s.isFrozen = false := by
        cases hx : s.isFrozen
        · rfl
        · rw [hx, hsolved] at hcond
          simp at hcond
      have hfpempty : s.frozenProblems = [] := hinv.unfrozenEmpty hfz
      split at h
      · -- accepted while unfrozen: the solve transition
        split at h
        · exact absurd h (by simp)
        next pen hpen =>
          simp only [Option.some_inj] at h
          subst h
          have hlookns : lookupA (ensureA (getTeamD s tn).isSolved p false) p ≠ some true :=
            getDA_false_ne_some_true hsolved
          constructor
          · intro hc
            simp [hst] at hc
          · intro _
            exact hfpempty
          · intro e he
            rcases mem_setA he with he' | he'
            · rw [he']
              exact setA_nodupKeys p true (ensureA_nodupKeys p false hnodupTn)
            · exact hinv.nodup e he'
          · intro tn' q hq
            have hq' : q ∈ getDA s.frozenProblems tn' [] := hq
            rw [hfpempty] at hq'
            simp [getDA, lookupA] at hq'
          · intro e he
            rcases mem_setA he with he' | he'
            · rw [he']
              simp only [Team.penaltySum]
              -- extract pen = 20 * w + tm
              simp only [Team.getProblemPenalty, lookupA_setA_self] at hpen
              cases hw : lookupA (getTeamD s tn).wrongSubmissions p with
              | none => simp [hw] at hpen
              | some w =>
                simp only [hw, lookupA_setA_self, Option.some_inj] at hpen
                rw [sumTerms_solve _ _ _ _ _ (ensureA_nodupKeys p false hnodupTn) hlookns,
                  sumTerms_ensureA_false]
                simp only [Team.penaltySum] at hpenTn
                have hwval : getDA (getTeamD s tn).wrongSubmissions p 0 = w := by
                  rw [getDA, hw]
                  rfl
                rw [hpenTn, hwval, ← hpen]
            · exact hinv.penOK e he'
      · -- non-accepted while unfrozen
        simp only [Option.some_inj] at h
        subst h
        have hlookns : lookupA (ensureA (getTeamD s tn).isSolved p false) p ≠ some true :=
          getDA_false_ne_some_true hsolved
        constructor
        · intro hc
          simp [hst] at hc
        · intro _
          exact hfpempty
        · intro e he
          rcases mem_setA he with he' | he'
          · rw [he']
            exact ensureA_nodupKeys p false hnodupTn
          · exact hinv.nodup e he'
        · intro tn' q hq
          have hq' : q ∈ getDA s.frozenProblems tn' [] := hq
          rw [hfpempty] at hq'
          simp [getDA, lookupA] at hq'
        · intro e he
          rcases mem_setA he with he' | he'
          · rw [he']
            simp only [Team.penaltySum]
            rw [sumTerms_wrongSet _ _ _ _ _ (ensureA_nodupKeys p false hnodupTn) hlookns,
              sumTerms_ensureA_false]
            simp only [Team.penaltySum] at hpenTn
            exact hpenTn
          · exact hinv.penOK e he'
    next hns =>
      -- the problem is already solved: only the total counter changes
      simp only [Option.some_inj] at h
      subst h
      constructor
      · intro hc
        simp [hst] at hc
      · intro hz
        exact hinv.unfrozenEmpty hz
      · intro e he
        rcases mem_setA he with he' | he'
        · rw [he']
          exact ensureA_nodupKeys p false hnodupTn
        · exact hinv.nodup e he'
      · intro tn' q hq
        by_cases htn : tn' = tn
        · rw [htn] at hq ⊢
          have hq' : q ∈ getDA s.frozenProblems tn [] := hq
          have := hinv.frozenOK tn q hq'
          simpa [getTeamD, lookupA_setA_self, getDA_ensureA] using this
        · have hq' : q ∈ getDA s.frozenProblems tn' [] := hq
          have := hinv.frozenOK tn' q hq'
          simpa [getTeamD, lookupA_setA_ne _ _ _ _ htn] using this
      · intro e he
        rcases mem_setA he with he' | he'
        · rw [he']
          simp only [Team.penaltySum]
          rw [sumTerms_ensureA_false]
          simp only [Team.penaltySum] at hpenTn
          exact hpenTn
        · exact hinv.penOK e he'

end ICPCMS

namespace ICPCMS

theorem setA_setA_self {V : Type} (m : AMap V) (k : String) (v w : V) :
    setA (setA m k v) k w = setA m k w := by
  induction m with
  | nil => simp [setA]
  | cons e rest ih =>
    by_cases he : e.1 = k
    · simp [setA, he]
    · simp [setA, he, ih]

theorem mem_eraseSet {l : List String} {p q : String} (h : q ∈ eraseSet l p) :
    q ∈ l ∧ q ≠ p := by
  simp only [eraseSet, List.mem_filter, decide_eq_true_eq] at h
  exact h

theorem foldl_min_mem (rest : List String) :
    ∀ a : String, rest.foldl (fun acc q => if strLt q acc then q else acc) a = a ∨
      rest.foldl (fun acc q => if strLt q acc then q else acc) a ∈ rest := by
  induction rest with
  | nil => intro a; exact Or.inl rfl
  | cons q rest ih =>
    intro a
    simp only [List.foldl_cons]
    by_cases hq : strLt q a = true
    · rw [if_pos hq]
      rcases ih q with h | h
      · exact Or.inr (by rw [h]; exact List.mem_cons_self _ _)
      · exact Or.inr (List.mem_cons_of_mem _ h)
    · rw [if_neg hq]
      rcases ih a with h | h
      · exact Or.inl h
      · exact Or.inr (List.mem_cons_of_mem _ h)

theorem minProblem_mem {l : List String} (h : l ≠ []) : minProblem l ∈ l := by
  cases l with
  | nil => exact absurd rfl h
  | cons p rest =>
    simp only [minProblem]
    rcases foldl_min_mem rest p with h' | h'
    · rw [h']; exact List.mem_cons_self _ _
    · exact List.mem_cons_of_mem _ h'

theorem findRevealIn_mem (s : SystemState) :
    ∀ (l : List String) (tn p : String), findRevealIn s l = some (tn, p) →
      p ∈ getDA s.frozenProblems tn [] := by
  intro l
  induction l with
  | nil => intro tn p h; simp [findRevealIn] at h
  | cons x rest ih =>
    intro tn p h
    simp only [findRevealIn] at h
    split at h
    · exact ih tn p h
    next hne =>
      simp only [Option.some_inj, Prod.mk.injEq] at h
      obtain ⟨h1, h2⟩ := h
      rw [← h1, ← h2]
      refine minProblem_mem ?_
      intro hnil
      rw [hnil] at hne
      exact hne rfl

theorem findReveal_mem {s : SystemState} {tn p : String}
    (h : findReveal s = some (tn, p)) : p ∈ getDA s.frozenProblems tn [] :=
  findRevealIn_mem s _ tn p h

theorem findRevealIn_of_empty (s : SystemState) (hfp : s.frozenProblems = []) :
    ∀ l, findRevealIn s l = none := by
  intro l
  induction l with
  | nil => rfl
  | cons x rest ih =>
    simp only [findRevealIn, hfp, getDA, lookupA, Option.getD_none,
      List.isEmpty_nil, if_true]
    exact ih

theorem findReveal_of_empty {s : SystemState} (hfp : s.frozenProblems = []) :
    findReveal s = none :=
  findRevealIn_of_empty s hfp _

end ICPCMS

namespace ICPCMS

theorem revealStep_preserves_inv (s : SystemState) (tn p : String)
    (s' : SystemState) (ev : Option (String × String))
    (hst : s.competitionStarted = true) (hfz : s.isFrozen = true)
    (hp : p ∈ getDA s.frozenProblems tn []) (hinv : InvC6 s)
    (h : revealStep s tn p = some (s', ev)) :
    InvC6 s' ∧ s'.competitionStarted = true ∧ s'.isFrozen = true := by
  have hnodupTn := nodupKeys_getTeamD s tn hinv
  have hpenTn := penOK_getTeamD s tn hinv
  simp only [Team.penaltySum] at hpenTn
  have hlook : lookupA (getTeamD s tn).isSolved p ≠ some true :=
    getDA_false_ne_some_true (hinv.frozenOK tn p hp)
  simp only [revealStep] at h
  split at h
  · -- frozenSubmissions > 0
    split at h
    next ft hft =>
      -- an accepted frozen submission exists: the solve transition
      split at h
      · exact absurd h (by simp)
      next pen hpen =>
        have hpen' := hpen
        simp only [Team.getProblemPenalty, lookupA_setA_self] at hpen'
        cases hw : lookupA (getTeamD s tn).wrongSubmissions p with
        | none =>
          rw [hw] at hpen'
          simp at hpen'
        | some w =>
          rw [hw] at hpen'
          simp only [Option.some_inj] at hpen'
          simp only [Option.some_inj, Prod.mk.injEq] at h
          obtain ⟨hs', _⟩ := h
          subst hs'
          refine ⟨?_, hst, hfz⟩
          constructor
          · intro hc
            have hcs : s.competitionStarted = false := hc
            rw [hst] at hcs
            exact absurd hcs (by simp)
          · intro hz
            have hzs : s.isFrozen = false := hz
            rw [hfz] at hzs
            exact absurd hzs (by simp)
          · intro e he
            simp only [updateRankings] at he
            rw [setA_setA_self] at he
            rcases mem_setA he with he' | he'
            · rw [he']
              exact setA_nodupKeys p true hnodupTn
            · exact hinv.nodup e he'
          · intro tn' q hq
            by_cases htn : tn' = tn
            · rw [htn] at hq ⊢
              have hq2 : q ∈ eraseSet (getDA s.frozenProblems tn []) p := by
                simpa [updateRankings, getDA_setA_self] using hq
              obtain ⟨hql, hqp⟩ := mem_eraseSet hq2
              have := hinv.frozenOK tn q hql
              simpa [updateRankings, getTeamD, setA_setA_self, lookupA_setA_self,
                getDA_setA_ne _ _ _ _ _ hqp] using this
            · have hq' : q ∈ getDA s.frozenProblems tn' [] := by
                simpa [updateRankings, getDA_setA_ne _ _ _ _ _ htn] using hq
              have := hinv.frozenOK tn' q hq'
              simpa [updateRankings, getTeamD, setA_setA_self,
                lookupA_setA_ne _ _ _ _ htn] using this
          · intro e he
            simp only [updateRankings] at he
            rw [setA_setA_self] at he
            rcases mem_setA he with he' | he'
            · rw [he']
              simp only [Team.penaltySum]
              rw [sumTerms_solve _ _ _ _ _ hnodupTn hlook]
              simp only [getDA, hw, Option.getD_some]
              omega
            · exact hinv.penOK e he'
    next hft =>
      -- no accepted frozen submission: only the pending counter is reset
      simp only [Option.some_inj, Prod.mk.injEq] at h
      obtain ⟨hs', _⟩ := h
      subst hs'
      refine ⟨?_, hst, hfz⟩
      constructor
      · intro hc
        have hcs : s.competitionStarted = false := hc
        rw [hst] at hcs
        exact absurd hcs (by simp)
      · intro hz
        have hzs : s.isFrozen = false := hz
        rw [hfz] at hzs
        exact absurd hzs (by simp)
      · intro e he
        rcases mem_setA he with he' | he'
        · rw [he']
          exact hnodupTn
        · exact hinv.nodup e he'
      · intro tn' q hq
        by_cases htn : tn' = tn
        · rw [htn] at hq ⊢
          have hq2 : q ∈ eraseSet (getDA s.frozenProblems tn []) p := by
            simpa [getDA_setA_self] using hq
          obtain ⟨hql, _⟩ := mem_eraseSet hq2
          have := hinv.frozenOK tn q hql
          simpa [getTeamD, lookupA_setA_self] using this
        · have hq' : q ∈ getDA s.frozenProblems tn' [] := by
            simpa [getDA_setA_ne _ _ _ _ _ htn] using hq
          have := hinv.frozenOK tn' q hq'
          simpa [getTeamD, lookupA_setA_ne _ _ _ _ htn] using this
      · intro e he
        rcases mem_setA he with he' | he'
        · rw [he']
          simp only [Team.penaltySum]
          exact hpenTn
        · exact hinv.penOK e he'
  · -- no pending frozen submissions on the selected problem
    simp only [Option.some_inj, Prod.mk.injEq] at h
    obtain ⟨hs', _⟩ := h
    subst hs'
    refine ⟨?_, hst, hfz⟩
    constructor
    · intro hc
      have hcs : s.competitionStarted = false := hc
      rw [hst] at hcs
      exact absurd hcs (by simp)
    · intro hz
      have hzs : s.isFrozen = false := hz
      rw [hfz] at hzs
      exact absurd hzs (by simp)
    · intro e he
      rcases mem_setA he with he' | he'
      · rw [he']
        exact hnodupTn
      · exact hinv.nodup e he'
    · intro tn' q hq
      by_cases htn : tn' = tn
      · rw [htn] at hq ⊢
        have hq2 : q ∈ eraseSet (getDA s.frozenProblems tn []) p := by
          simpa [getDA_setA_self] using hq
        obtain ⟨hql, _⟩ := mem_eraseSet hq2
        have := hinv.frozenOK tn q hql
        simpa [getTeamD, lookupA_setA_self] using this
      · have hq' : q ∈ getDA s.frozenProblems tn' [] := by
          simpa [getDA_setA_ne _ _ _ _ _ htn] using hq
        have := hinv.frozenOK tn' q hq'
        simpa [getTeamD, lookupA_setA_ne _ _ _ _ htn] using this
    · intro e he
      rcases mem_setA he with he' | he'
      · rw [he']
        simp only [Team.penaltySum]
        exact hpenTn
      · exact hinv.penOK e he'

end ICPCMS

namespace ICPCMS

theorem scrollLoop_preserves_inv : ∀ (fuel : Nat) (s : SystemState)
    (acc : List (String × String)) (s' : SystemState)
    (acc' : List (String × String)), InvC6 s → s.isFrozen = true →
    scrollLoop fuel s acc = some (s', acc') → InvC6 s' ∧ s'.isFrozen = true := by
  intro fuel
  induction fuel with
  | zero =>
    intro s acc s' acc' _ _ h
    simp [scrollLoop] at h
  | succ fuel ih =>
    intro s acc s' acc' hinv hfz h
    simp only [scrollLoop] at h
    split at h
    next hfr =>
      simp only [Option.some_inj, Prod.mk.injEq] at h
      obtain ⟨h1, _⟩ := h
      rw [← h1]
      exact ⟨hinv, hfz⟩
    next tn p hfr =>
      split at h
      · exact absurd h (by simp)
      next s1 ev hrs =>
        have hst : s.competitionStarted = true := by
          cases hc : s.competitionStarted
          · obtain ⟨_, hfp⟩ := hinv.fresh hc
            rw [findReveal_of_empty hfp] at hfr
            exact absurd hfr (by simp)
          · rfl
        have hp := findReveal_mem hfr
        obtain ⟨hinv1, _, hfz1⟩ :=
          revealStep_preserves_inv s tn p s1 ev hst hfz hp hinv hrs
        exact ih s1 _ s' acc' hinv1 hfz1 h

theorem scroll_preserves_inv (s s' : SystemState) (r : ScrollResult)
    (hinv : InvC6 s) (h : scrollScoreboard s = some (s', r)) : InvC6 s' := by
  simp only [scrollScoreboard] at h
  split at h
  · simp only [Option.some_inj, Prod.mk.injEq] at h
    obtain ⟨h1, _⟩ := h
    rw [← h1]
    exact hinv
  next hnf =>
    have hfz : s.isFrozen = true := by
      cases hc : s.isFrozen
      · rw [hc] at hnf; simp at hnf
      · rfl
    split at h
    · exact absurd h (by simp)
    next s2 changes hsl =>
      simp only [Option.some_inj, Prod.mk.injEq] at h
      obtain ⟨h1, _⟩ := h
      have hfz1 : (updateRankings s).isFrozen = true := hfz
      obtain ⟨hinv2, _⟩ := scrollLoop_preserves_inv _ _ _ _ _
        (inv_updateRankings s hinv) hfz1 hsl
      rw [← h1]
      constructor
      · intro hc
        have hc2 : s2.competitionStarted = false := hc
        obtain ⟨hf, _⟩ := hinv2.fresh hc2
        exact ⟨hf, rfl⟩
      · intro _
        rfl
      · exact hinv2.nodup
      · intro tn q hq
        simp [getDA, lookupA] at hq
      · exact hinv2.penOK

end ICPCMS

namespace ICPCMS

/-- Protocol-respecting runs: any sequence of the system's operations in
which submissions are applied only after the competition has started
(queries leave the state unchanged and are omitted). -/
inductive ReachP : SystemState → Prop where
  | init : ReachP initState
  | step_addTeam (n : String) (s : SystemState) (h : ReachP s) :
      ReachP (addTeam n s).1
  | step_start (d c : Int) (s : SystemState) (h : ReachP s) :
      ReachP (startCompetition d c s).1
  | step_submit (p tn st : String) (tm : Int) (s s' : SystemState)
      (h : ReachP s) (hst : s.competitionStarted = true)
      (hs : submitProblem p tn st tm s = some s') : ReachP s'
  | step_flush (s : SystemState) (h : ReachP s) : ReachP (flushScoreboard s).1
  | step_freeze (s : SystemState) (h : ReachP s) : ReachP (freezeScoreboard s).1
  | step_scroll (s s' : SystemState) (r : ScrollResult) (h : ReachP s)
      (hs : scrollScoreboard s = some (s', r)) : ReachP s'

theorem invC6_init : InvC6 initState := by
  constructor
  · intro _
    refine ⟨?_, rfl⟩
    intro e he
    simp [initState] at he
  · intro _
    rfl
  · intro e he
    simp [initState] at he
  · intro tn p hp
    simp [initState, getDA, lookupA] at hp
  · intro e he
    simp [initState] at he

theorem reachP_inv {s : SystemState} (h : ReachP s) : InvC6 s := by
  induction h with
  | init => exact invC6_init
  | step_addTeam n s h ih => exact addTeam_preserves_inv n s ih
  | step_start d c s h ih => exact start_preserves_inv d c s ih
  | step_submit p tn st tm s s' h hst hs ih =>
    exact submit_preserves_inv p tn st tm s s' hst ih hs
  | step_flush s h ih => exact inv_updateRankings s ih
  | step_freeze s h ih => exact freeze_preserves_inv s ih
  | step_scroll s s' r h hs ih => exact scroll_preserves_inv s s' r ih hs

end ICPCMS

namespace ICPCMS

/-- C6 (amended): in every state reached by a protocol-respecting run —
submissions applied only after the competition start — every registered
team's `penaltyTime` equals the sum, over its solved problems, of
`20 * wrongSubmissions + firstAcceptTime` (the per-problem contribution of
`Team::getProblemPenalty`).  The claim as stated over all runs is refuted by
`penalty_invariant_counterexample`: a pre-start submission charges
penaltyTime and solvedCount, and START resets the per-problem maps without
resetting either. -/
theorem penalty_invariant (s : SystemState) (h : ReachP s) :
    ∀ e ∈ s.teams, (e : String × Team).2.penaltyTime = e.2.penaltySum :=
  (reachP_inv h).penOK

def c6wPre : SystemState := (startCompetition 300 1 (addTeam "T" initState).1).1

def c6wSub : SystemState :=
  (submitProblem "A" "T" "Accepted" 1 c6wPre).getD initState

theorem penalty_invariant_witness :
    ("T", getTeamD c6wSub "T") ∈ c6wSub.teams ∧
      (getTeamD c6wSub "T").penaltyTime = (getTeamD c6wSub "T").penaltySum :=
  ⟨by decide,
   penalty_invariant c6wSub
     (ReachP.step_submit "A" "T" "Accepted" 1 c6wPre c6wSub
       (ReachP.step_start 300 1 (addTeam "T" initState).1
         (ReachP.step_addTeam "T" initState ReachP.init))
       (by decide) (by decide))
     ("T", getTeamD c6wSub "T") (by decide)⟩

end ICPCMS
